import Mathlib

/-! gosh: the command template builder and its execution lifecycle.

A shallow embedding of `gosh/sh.go` and `gosh/sh_modifiers.go`.

Go values with reference semantics are kept in an explicit `Heap`:

* a `[]string` is a `Slice` header (backing array, length, capacity); the backing
  arrays live in the heap, and `append` writes in place when the capacity allows it;
* a `map[string]string` held by a template is a reference into the heap's maps.

Copying a `commandTemplate` (as `closure` does with its by-value parameter) copies the
slice header and the map reference, not what they point to.

Functions that may panic return the heap reached together with `Except Panic _`.
-/

namespace Gosh

/-! ## Data model (`sh_modifiers.go`) -/

/-- The contents of a Go `map[string]string`: finitely many entries, keys unique. -/
abbrev Env := AList (fun _ : String => String)

/-- A value bound to `Opts.In`, `Opts.Out` or `Opts.Err` (an `interface{}` in the
source). The number is the identity of the object, so two endpoints are `==` in Go
exactly when they are equal here. -/
inductive Endpoint where
  /-- a `string` or `[]byte`, taken literally -/
  | literal (s : String)
  /-- a `*bytes.Buffer` -/
  | buffer (id : Nat)
  /-- an `io.Reader` -/
  | reader (id : Nat)
  /-- an `io.Writer` -/
  | writer (id : Nat)
  /-- a receive-only channel -/
  | recvChan (id : Nat)
  /-- a send-only channel -/
  | sendChan (id : Nat)
  /-- an `*os.File`, which is both an `io.Reader` and an `io.Writer` -/
  | file (id : Nat)
  /-- another `Command` -/
  | command (id : Nat)
  /-- a value of any other type -/
  | unknown (id : Nat)
  deriving DecidableEq, Repr

/-- The source's `Opts`. A `nil` interface or a `nil` slice is `none`. -/
structure Opts where
  Cwd : String := ""
  In : Option Endpoint := none
  Out : Option Endpoint := none
  Err : Option Endpoint := none
  OkExit : Option (List Int) := none
  deriving DecidableEq, Repr

/-- A `[]string` slice header. The elements are `arrays arr 0 .. arrays arr (len-1)`
of the heap; the `nil` slice has `len = 0` and `cap = 0`. -/
structure Slice where
  arr : Nat
  len : Nat
  cap : Nat
  deriving DecidableEq, Repr

/-- The source's `commandTemplate`: `cmd`, `args`, `env` and the embedded `Opts`.
`env` is a map reference (`none` is the `nil` map). -/
structure commandTemplate extends Opts where
  cmd : String
  args : Slice
  env : Option Nat
  deriving DecidableEq, Repr

/-- The memory that templates point into. -/
structure Heap where
  /-- backing arrays of `[]string` slices, by array identity and index -/
  arrays : Nat → Nat → String
  /-- the next unused array identity -/
  nextArray : Nat
  /-- the maps, by map identity -/
  maps : Nat → Env
  /-- the next unused map identity -/
  nextMap : Nat
  /-- the next unused identity of a resolved stream -/
  nextStream : Nat

/-- A heap in which nothing has been allocated. -/
def Heap.empty : Heap :=
  ⟨fun _ _ => "", 0, fun _ => ∅, 0, 0⟩

/-- An argument of a `Command` invocation (an `interface{}` in the source), by
dynamic type. An `Env` argument is passed as the entries the `range` loop visits. -/
inductive Value where
  | str (s : String)
  | env (e : Env)
  | clearEnv
  | opts (o : Opts)
  /-- the package-private constant `expose` of type `expose_t` -/
  | exposeFlag
  /-- a value of any other dynamic type -/
  | other (tag : Nat)

/-- The panics raised by the code. -/
inductive Panic where
  /-- `IncomprehensibleCommandModifier`, with the value `wat` points to -/
  | IncomprehensibleCommandModifier (wat : Value)
  /-- `FailureExitCode` -/
  | FailureExitCode (cmdname : String) (code : Int)
  /-- `fmt.Errorf("not yet implemented")`: a `Command` bound as input -/
  | notYetImplemented
  /-- the stream resolver rejects an endpoint -/
  | UnsupportedStreamBinding (e : Endpoint)
  /-- the Go runtime's "assignment to entry in nil map" -/
  | nilMapAssignment

/-- The source's `Command`, a closure over a pointer to a `commandTemplate`. Every
invocation copies `*cmdt` into the parameter of `closure` and nothing writes to the
cell once it has been enclosed, so the closure is represented by the template it
reads. -/
structure Command where
  tmpl : commandTemplate

/-- The source's `enclose`. -/
def enclose (cmdt : commandTemplate) : Command := ⟨cmdt⟩

/-- The source's `Command.expose`: `f(expose)(&t)` stores in `t` a pointer to the copy
of the template that `closure` received. -/
def Command.expose (f : Command) : commandTemplate := f.tmpl

/-! ## Slices and maps of the Go runtime -/

/-- The elements of a slice. -/
def Slice.read (h : Heap) (s : Slice) : List String :=
  (List.range s.len).map (h.arrays s.arr)

/-- Store `xs` into an array from index `off` on. -/
def writeAt (a : Nat → String) (off : Nat) (xs : List String) : Nat → String :=
  fun i => if off ≤ i ∧ i < off + xs.length then xs.getD (i - off) "" else a i

/-- Go's `append(s, xs...)`. When the capacity suffices the elements are stored in the
backing array of `s`; otherwise a new array of capacity `grow s.cap (s.len + xs.length)`
receives the elements of `s` followed by `xs`. The language leaves the new capacity to
the implementation, hence the parameter `grow`. -/
def Heap.append (grow : Nat → Nat → Nat) (h : Heap) (s : Slice) (xs : List String) :
    Heap × Slice :=
  if s.len + xs.length ≤ s.cap then
    ({ h with arrays := Function.update h.arrays s.arr (writeAt (h.arrays s.arr) s.len xs) },
      { s with len := s.len + xs.length })
  else
    ({ h with
        arrays := Function.update h.arrays h.nextArray
          (writeAt (fun i => if i < s.len then h.arrays s.arr i else "") s.len xs)
        nextArray := h.nextArray + 1 },
      ⟨h.nextArray, s.len + xs.length, grow s.cap (s.len + xs.length)⟩)

/-- The growth rule of the gc runtime's `growslice` on short slices, before the
rounding up to an allocation size class (which leaves the capacities 1, 2 and 4 as
they are): the requested capacity when it exceeds twice the old one, else twice the old
capacity. -/
def growslice (oldCap needed : Nat) : Nat :=
  if oldCap + oldCap < needed then needed else oldCap + oldCap

/-- Go's `m[k] = v` on the map `r`. -/
def Heap.mapSet (h : Heap) (r : Nat) (k v : String) : Heap :=
  { h with maps := Function.update h.maps r ((h.maps r).insert k v) }

/-- Go's `delete(m, k)` on the map `r`. -/
def Heap.mapDelete (h : Heap) (r : Nat) (k : String) : Heap :=
  { h with maps := Function.update h.maps r ((h.maps r).erase k) }

/-- Go's `make(map[string]string)`, here with initial entries. -/
def Heap.newMap (h : Heap) (m : Env) : Heap × Nat :=
  ({ h with maps := Function.update h.maps h.nextMap m, nextMap := h.nextMap + 1 }, h.nextMap)

/-- The value of key `k` in the environment of a template, `none` when absent. -/
def commandTemplate.getenv (h : Heap) (cmdt : commandTemplate) (k : String) : Option String :=
  match cmdt.env with
  | none => none
  | some r => (h.maps r).lookup k

/-! ## The template builder (`sh.go`) -/

/-- The source's `commandTemplate.bakeArgs`. -/
def commandTemplate.bakeArgs (grow : Nat → Nat → Nat) (h : Heap) (cmdt : commandTemplate)
    (args : List String) : Heap × commandTemplate :=
  let r := h.append grow cmdt.args args
  (r.1, { cmdt with args := r.2 })

/-- The `range` loop of `commandTemplate.bakeEnv` over the entries still to visit. -/
def bakeEnvLoop (env : Option Nat) : List (Sigma fun _ : String => String) → Heap →
    Heap × Except Panic Unit
  | [], h => (h, .ok ())
  | ⟨k, v⟩ :: rest, h =>
    if v = "" then
      match env with
      | none => bakeEnvLoop env rest h
      | some r => bakeEnvLoop env rest (h.mapDelete r k)
    else
      match env with
      | none => (h, .error .nilMapAssignment)
      | some r => bakeEnvLoop env rest (h.mapSet r k v)

/-- The source's `commandTemplate.bakeEnv`. -/
def commandTemplate.bakeEnv (h : Heap) (cmdt : commandTemplate) (args : Env) :
    Heap × Except Panic commandTemplate :=
  match bakeEnvLoop cmdt.env args.entries h with
  | (h1, .error p) => (h1, .error p)
  | (h1, .ok _) => (h1, .ok cmdt)

/-- The source's `commandTemplate.clearEnv`. -/
def commandTemplate.clearEnv (h : Heap) (cmdt : commandTemplate) : Heap × commandTemplate :=
  let r := h.newMap ∅
  (r.1, { cmdt with env := some r.2 })

/-- One iteration of the loop of `commandTemplate.bakeOpts`. -/
def bakeOpt (cmdt : commandTemplate) (arg : Opts) : commandTemplate :=
  let c1 := if arg.Cwd ≠ "" then { cmdt with Cwd := arg.Cwd } else cmdt
  let c2 := if arg.In ≠ none then { c1 with In := arg.In } else c1
  let c3 := if arg.Out ≠ none then { c2 with Out := arg.Out } else c2
  let c4 := if arg.Err ≠ none then { c3 with Err := arg.Err } else c3
  if arg.OkExit ≠ none then { c4 with OkExit := arg.OkExit } else c4

/-- The source's `commandTemplate.bakeOpts`. -/
def commandTemplate.bakeOpts (cmdt : commandTemplate) (args : List Opts) : commandTemplate :=
  args.foldl bakeOpt cmdt

/-- The source's `Command.BakeArgs`. -/
def Command.BakeArgs (grow : Nat → Nat → Nat) (h : Heap) (f : Command) (args : List String) :
    Heap × Command :=
  let r := f.expose.bakeArgs grow h args
  (r.1, enclose r.2)

/-- The source's `Command.BakeEnv`. -/
def Command.BakeEnv (h : Heap) (f : Command) (args : Env) : Heap × Except Panic Command :=
  match f.expose.bakeEnv h args with
  | (h1, .error p) => (h1, .error p)
  | (h1, .ok c) => (h1, .ok (enclose c))

/-- The source's `Command.ClearEnv`. -/
def Command.ClearEnv (h : Heap) (f : Command) : Heap × Command :=
  let r := f.expose.clearEnv h
  (r.1, enclose r.2)

/-- The source's `Command.BakeOpts`. -/
def Command.BakeOpts (f : Command) (args : List Opts) : Command :=
  enclose (f.expose.bakeOpts args)

/-! ## The execution lifecycle (`sh.go`) -/

/-- A stream produced by the stream resolver: its own identity and the endpoint it
was resolved from. -/
structure Stream where
  id : Nat
  endpoint : Endpoint
  deriving DecidableEq, Repr

/-- Modelled from the spec: `iox.ReaderFromInterface`, whose source is not available.
Literal text or bytes, a readable stream handle, an accumulating buffer and a
receive-only channel resolve to a fresh readable stream; any other endpoint fails
with `UnsupportedStreamBinding`. -/
def ReaderFromInterface (h : Heap) (e : Endpoint) : Heap × Except Panic Stream :=
  match e with
  | .literal _ | .buffer _ | .reader _ | .file _ | .recvChan _ =>
    ({ h with nextStream := h.nextStream + 1 }, .ok ⟨h.nextStream, e⟩)
  | _ => (h, .error (.UnsupportedStreamBinding e))

/-- Modelled from the spec: `iox.WriterFromInterface`, whose source is not available.
An accumulating buffer, a writable stream handle and a send-only channel resolve to a
fresh writable stream; any other endpoint fails with `UnsupportedStreamBinding`. -/
def WriterFromInterface (h : Heap) (e : Endpoint) : Heap × Except Panic Stream :=
  match e with
  | .buffer _ | .writer _ | .file _ | .sendChan _ =>
    ({ h with nextStream := h.nextStream + 1 }, .ok ⟨h.nextStream, e⟩)
  | _ => (h, .error (.UnsupportedStreamBinding e))

/-- The fields of the `exec.Cmd` that `Start` fills in. `Env = none` is the `nil`
slice, with which the process inherits the environment of the host. -/
structure ExecCmd where
  Path : String
  Args : List String
  Env : Option (List String) := none
  Dir : String := ""
  Stdin : Option Stream := none
  Stdout : Option Stream := none
  Stderr : Option Stream := none
  deriving DecidableEq, Repr

/-- Go's `exec.Command(name, arg...)`. -/
def execCommand (name : String) (arg : List String) : ExecCmd :=
  { Path := name, Args := name :: arg }

/-- Modelled from the spec: the running process handle (`RunningCommand` with
`NewRunningCommand`, `Start`, `Wait` and `GetExitCode`), whose source is not
available. It holds the process specification and, after completion, the integer
exit code. -/
structure RunningCommand where
  cmd : ExecCmd
  exitCode : Option Int := none
  deriving DecidableEq, Repr

/-- Modelled from the spec: `NewRunningCommand`, a handle that is not started. -/
def NewRunningCommand (rcmd : ExecCmd) : RunningCommand := { cmd := rcmd }

/-- Modelled from the spec: `RunningCommand.Wait` blocks until the process terminates
and records its exit code on the handle. The operating system is the function `os`
from the process spawned to the code it exits with. -/
def RunningCommand.Wait (os : ExecCmd → Int) (rc : RunningCommand) : RunningCommand :=
  { rc with exitCode := some (os rc.cmd) }

/-- Modelled from the spec: `RunningCommand.GetExitCode`, the recorded exit code. -/
def RunningCommand.GetExitCode (rc : RunningCommand) : Int := rc.exitCode.getD (-1)

/-- The environment vector of `Start`: one `k=v` per entry of the map, in the order
in which the `range` loop visits them. -/
def envVector (m : Env) : List String :=
  m.entries.map fun e => e.1 ++ "=" ++ e.2

/-- The source's `Command.Start`. -/
def Command.Start (h : Heap) (f : Command) : Heap × Except Panic RunningCommand :=
  let cmdt := f.expose
  let rcmd := execCommand cmdt.cmd (cmdt.args.read h)
  -- set up env
  let rcmd := match cmdt.env with
    | some r => { rcmd with Env := some (envVector (h.maps r)) }
    | none => rcmd
  -- set up opts (cwd/stdin/stdout/stderr)
  let rcmd := if cmdt.Cwd ≠ "" then { rcmd with Dir := cmdt.Cwd } else rcmd
  let stdin : Heap × Except Panic (Option Stream) :=
    match cmdt.In with
    | none => (h, .ok none)
    | some (.command _) => (h, .error .notYetImplemented)
    | some e =>
      match ReaderFromInterface h e with
      | (h1, .ok s) => (h1, .ok (some s))
      | (h1, .error p) => (h1, .error p)
  match stdin with
  | (h1, .error p) => (h1, .error p)
  | (h1, .ok sin) =>
    let rcmd := { rcmd with Stdin := sin }
    let stdout : Heap × Except Panic (Option Stream) :=
      match cmdt.Out with
      | none => (h1, .ok none)
      | some e =>
        match WriterFromInterface h1 e with
        | (h2, .ok s) => (h2, .ok (some s))
        | (h2, .error p) => (h2, .error p)
    match stdout with
    | (h2, .error p) => (h2, .error p)
    | (h2, .ok sout) =>
      let rcmd := { rcmd with Stdout := sout }
      let stderr : Heap × Except Panic (Option Stream) :=
        match cmdt.Err with
        | none => (h2, .ok none)
        | some e =>
          if cmdt.Err = cmdt.Out then (h2, .ok rcmd.Stdout)
          else
            match WriterFromInterface h2 e with
            | (h3, .ok s) => (h3, .ok (some s))
            | (h3, .error p) => (h3, .error p)
      match stderr with
      | (h3, .error p) => (h3, .error p)
      | (h3, .ok serr) =>
        -- go time
        (h3, .ok (NewRunningCommand { rcmd with Stderr := serr }))

/-- The loop of `Command.Run` over the accepted exit codes: `true` when it returns
from inside the loop, `false` when it falls through to the panic. -/
def okLoop (exitCode : Int) : List Int → Bool
  | [] => false
  | okcode :: rest => if exitCode = okcode then true else okLoop exitCode rest

/-- The source's `Command.Run`. Ranging over the `nil` slice visits nothing. -/
def Command.Run (os : ExecCmd → Int) (h : Heap) (f : Command) : Heap × Except Panic Unit :=
  let cmdt := f.expose
  match f.Start h with
  | (h1, .error p) => (h1, .error p)
  | (h1, .ok cmd) =>
    let cmd := cmd.Wait os
    let exitCode := cmd.GetExitCode
    if okLoop exitCode (cmdt.OkExit.getD []) then (h1, .ok ())
    else (h1, .error (.FailureExitCode cmdt.cmd exitCode))

/-- What an invocation of a `Command` returns. -/
inductive Result where
  /-- a `Command` closing over the baked template -/
  | command (c : Command)
  /-- the `nil` `Command` -/
  | nil
  /-- the function that hands the template `cmdt` to an `exposer` -/
  | exposer (cmdt : commandTemplate)

/-- The `range args` loop of `closure`, acting on the copy `cmdt` of the template. -/
def closureLoop (grow : Nat → Nat → Nat) : List Value → Heap → commandTemplate →
    Heap × Except Panic commandTemplate
  | [], h, cmdt => (h, .ok cmdt)
  | rarg :: rest, h, cmdt =>
    match rarg with
    | .str arg =>
      let r := cmdt.bakeArgs grow h [arg]
      closureLoop grow rest r.1 r.2
    | .env arg =>
      match cmdt.bakeEnv h arg with
      | (h1, .error p) => (h1, .error p)
      | (h1, .ok c) => closureLoop grow rest h1 c
    | .clearEnv =>
      let r := cmdt.clearEnv h
      closureLoop grow rest r.1 r.2
    | .opts arg => closureLoop grow rest h (cmdt.bakeOpts [arg])
    | _ => (h, .error (.IncomprehensibleCommandModifier rarg))

/-- The source's `closure`: what invoking a `Command` that closes over `cmdt` does. -/
def closure (grow : Nat → Nat → Nat) (os : ExecCmd → Int) (h : Heap) (cmdt : commandTemplate)
    (args : List Value) : Heap × Except Panic Result :=
  match args with
  | [] =>
    -- an empty call is a synonym for Command.Run().
    match (enclose cmdt).Run os h with
    | (h1, .error p) => (h1, .error p)
    | (h1, .ok _) => (h1, .ok .nil)
  | .exposeFlag :: _ => (h, .ok (.exposer cmdt))
  | _ =>
    match closureLoop grow args h cmdt with
    | (h1, .error p) => (h1, .error p)
    | (h1, .ok c) => (h1, .ok (.command (enclose c)))

/-- Invoking the `Command` `f` with `args`: `enclose` returns the function
`closure(*cmdt, x...)`. -/
def Command.call (grow : Nat → Nat → Nat) (os : ExecCmd → Int) (h : Heap) (f : Command)
    (args : List Value) : Heap × Except Panic Result :=
  closure grow os h f.tmpl args

/-- Modelled from the spec: `getOsEnv`, whose source is not available, returns a
snapshot of the environment of the host process, here a new map with the entries
`host`. -/
def getOsEnv (host : Env) (h : Heap) : Heap × Option Nat :=
  let r := h.newMap host
  (r.1, some r.2)

/-- The source's `Sh`. -/
def Sh (host : Env) (h : Heap) (cmd : String) : Heap × Command :=
  let e := getOsEnv host h
  (e.1, enclose { cmd := cmd, args := ⟨0, 0, 0⟩, env := e.2, OkExit := some [0] })

/-! ## Vocabulary of the statements -/

/-- An argument is a modifier when it is a string, an `Env`, a `ClearEnv` or an
`Opts`. -/
def Value.isModifier : Value → Bool
  | .str _ | .env _ | .clearEnv | .opts _ => true
  | _ => false

/-- The Command `Sh("p")` and the heap it lives in, built from the empty heap in a
host process without environment variables. -/
def shP : Heap × Command := Sh ∅ Heap.empty "p"

/-! ## Capturing output (`sh.go`) -/

/-- The source's `Command.Output`. `buf` is the identity of the buffer that
`var buf bytes.Buffer` allocates, and `bytes b` is what the buffer `b` has accumulated
when `Run` has returned (the text of `buf.String()`). -/
def Command.Output (os : ExecCmd → Int) (bytes : Nat → String) (buf : Nat) (h : Heap)
    (f : Command) : Heap × Except Panic String :=
  match (f.BakeOpts [{ Out := some (.buffer buf) }]).Run os h with
  | (h1, .error p) => (h1, .error p)
  | (h1, .ok _) => (h1, .ok (bytes buf))

/-- The source's `Command.CombinedOutput`, with `buf` and `bytes` as in `Output`. -/
def Command.CombinedOutput (os : ExecCmd → Int) (bytes : Nat → String) (buf : Nat) (h : Heap)
    (f : Command) : Heap × Except Panic String :=
  match (f.BakeOpts [{ Out := some (.buffer buf), Err := some (.buffer buf) }]).Run os h with
  | (h1, .error p) => (h1, .error p)
  | (h1, .ok _) => (h1, .ok (bytes buf))

/-! ## Further vocabulary of the statements -/

/-- An argument sets the accepted exit codes when it is an `Opts` whose `OkExit` is
not nil. -/
def Value.setsOkExit : Value → Bool
  | .opts o => o.OkExit.isSome
  | _ => false

/-- The Commands derived from `f` by a sequence of bakes none of whose options
overlays sets `OkExit`: invocations with modifier arguments and the four named
operations, each in whatever heap it is performed. -/
inductive DerivedKeepingOkExit (grow : Nat → Nat → Nat) (os : ExecCmd → Int) (f : Command) :
    Command → Prop where
  | base : DerivedKeepingOkExit grow os f f
  | call (g k : Command) (h h1 : Heap) (args : List Value) :
      DerivedKeepingOkExit grow os f g →
      (∀ v ∈ args, v.isModifier = true ∧ v.setsOkExit = false) →
      g.call grow os h args = (h1, .ok (.command k)) →
      DerivedKeepingOkExit grow os f k
  | bakeArgs (g : Command) (h : Heap) (ss : List String) :
      DerivedKeepingOkExit grow os f g →
      DerivedKeepingOkExit grow os f (g.BakeArgs grow h ss).2
  | bakeEnv (g k : Command) (h h1 : Heap) (e : Env) :
      DerivedKeepingOkExit grow os f g →
      g.BakeEnv h e = (h1, .ok k) →
      DerivedKeepingOkExit grow os f k
  | clearEnv (g : Command) (h : Heap) :
      DerivedKeepingOkExit grow os f g →
      DerivedKeepingOkExit grow os f (g.ClearEnv h).2
  | bakeOpts (g : Command) (opts : List Opts) :
      DerivedKeepingOkExit grow os f g →
      (∀ o ∈ opts, o.OkExit = none) →
      DerivedKeepingOkExit grow os f (g.BakeOpts opts)



/-- The process specification that `Start` produces for `Sh("p")` when output and error
are both bound to buffer 1: one stream, resolved from the buffer, is both the standard
output and the standard error. -/
def combinedSpec : ExecCmd :=
  { Path := "p"
    Args := ["p"]
    Env := some []
    Stdout := some ⟨0, .buffer 1⟩
    Stderr := some ⟨0, .buffer 1⟩ }



/-! # Theorems -/

/-! ## Slices -/

theorem writeAt_below (a : Nat → String) (off : Nat) (xs : List String) (i : Nat)
    (hi : i < off) : writeAt a off xs i = a i := by
  unfold writeAt
  rw [if_neg]
  omega

theorem writeAt_at (a : Nat → String) (off : Nat) (xs : List String) (j : Nat)
    (hj : j < xs.length) : writeAt a off xs (off + j) = xs[j] := by
  unfold writeAt
  rw [if_pos ⟨Nat.le_add_right _ _, by omega⟩]
  simp [List.getD_eq_getElem?_getD, List.getElem?_eq_getElem hj]

theorem map_range_writeAt (a : Nat → String) (off : Nat) (xs : List String) :
    (List.range (off + xs.length)).map (writeAt a off xs) = (List.range off).map a ++ xs := by
  rw [List.range_add, List.map_append, List.map_map]
  congr 1
  · apply List.map_congr_left
    intro i hi
    exact writeAt_below a off xs i (List.mem_range.mp hi)
  · apply List.ext_getElem
    · simp
    · intro j h1 h2
      simp only [List.getElem_map, List.getElem_range, Function.comp_apply]
      exact writeAt_at a off xs j h2

/-- After `append(s, xs...)` the returned slice holds the elements of `s` followed by
`xs`, whether the elements were stored in place or in a new array. -/
theorem read_append (grow : Nat → Nat → Nat) (h : Heap) (s : Slice) (xs : List String) :
    (h.append grow s xs).2.read (h.append grow s xs).1 = s.read h ++ xs := by
  unfold Heap.append
  split
  · simp only [Slice.read, Function.update_same]
    exact map_range_writeAt _ _ _
  · simp only [Slice.read, Function.update_same]
    rw [map_range_writeAt]
    congr 1
    apply List.map_congr_left
    intro i hi
    simp [List.mem_range.mp hi]


/-! ## Baking arguments -/

theorem bakeArgs_read (grow : Nat → Nat → Nat) (h : Heap) (cmdt : commandTemplate)
    (xs : List String) :
    (cmdt.bakeArgs grow h xs).2.args.read (cmdt.bakeArgs grow h xs).1 = cmdt.args.read h ++ xs :=
  read_append grow h cmdt.args xs

/-- The loop of `closure` over string arguments only never panics and appends them in
the order given. -/
theorem closureLoop_strings (grow : Nat → Nat → Nat) (xs : List String) :
    ∀ (h : Heap) (cmdt : commandTemplate), ∃ h1 c,
      closureLoop grow (xs.map Value.str) h cmdt = (h1, .ok c) ∧
      c.args.read h1 = cmdt.args.read h ++ xs ∧
      c.cmd = cmdt.cmd ∧ c.env = cmdt.env ∧ c.toOpts = cmdt.toOpts := by
  induction xs with
  | nil => intro h cmdt; exact ⟨h, cmdt, rfl, by simp, rfl, rfl, rfl⟩
  | cons x xs ih =>
    intro h cmdt
    obtain ⟨h1, c, hrun, hread, hcmd, henv, hopts⟩ :=
      ih (cmdt.bakeArgs grow h [x]).1 (cmdt.bakeArgs grow h [x]).2
    refine ⟨h1, c, ?_, ?_, ?_, ?_, ?_⟩
    · simpa [closureLoop] using hrun
    · rw [hread, bakeArgs_read]; simp
    · rw [hcmd]; rfl
    · rw [henv]; rfl
    · rw [hopts]; rfl

/-- C4: the argument list of `A(x)(y)` is that of `A` followed by `x` and then `y`; in
general a call with string arguments only, and `BakeArgs`, yield a Command whose
argument list is the earlier one, in its order, followed by the new strings in the
order given. -/
theorem C4_bake_args_appends_in_order (grow : Nat → Nat → Nat) (os : ExecCmd → Int) (h : Heap)
    (A : Command) (x y : String) :
    (∃ h1 B h2 C,
      A.call grow os h [.str x] = (h1, .ok (.command B)) ∧
      B.call grow os h1 [.str y] = (h2, .ok (.command C)) ∧
      B.tmpl.args.read h1 = A.tmpl.args.read h ++ [x] ∧
      C.tmpl.args.read h2 = A.tmpl.args.read h ++ [x, y]) ∧
    (∀ s ss, ∃ h1 B,
      A.call grow os h ((s :: ss).map Value.str) = (h1, .ok (.command B)) ∧
      B.tmpl.args.read h1 = A.tmpl.args.read h ++ (s :: ss)) ∧
    (∀ ss, (A.BakeArgs grow h ss).2.tmpl.args.read (A.BakeArgs grow h ss).1
      = A.tmpl.args.read h ++ ss) := by
  have key : ∀ (h : Heap) (A : Command) (s : String) (ss : List String), ∃ h1 B,
      A.call grow os h ((s :: ss).map Value.str) = (h1, .ok (.command B)) ∧
      B.tmpl.args.read h1 = A.tmpl.args.read h ++ (s :: ss) := by
    intro h A s ss
    obtain ⟨h1, c, hrun, hread, -⟩ := closureLoop_strings grow (s :: ss) h A.tmpl
    refine ⟨h1, enclose c, ?_, hread⟩
    simp only [Command.call, closure, List.map_cons] at hrun ⊢
    rw [hrun]
  refine ⟨?_, key h A, fun ss => bakeArgs_read grow h A.tmpl ss⟩
  obtain ⟨h1, B, hB, hBr⟩ := key h A x []
  obtain ⟨h2, C, hC, hCr⟩ := key h1 B y []
  refine ⟨h1, B, h2, C, hB, hC, hBr, ?_⟩
  rw [hCr, hBr]; simp

/-- C1: at `A = Sh("p")("a", "b", "c")`, whose argument slice has length 3 in a backing
array of capacity 4, `B = A("-x")` and `C = A("-y")` both store their argument at
index 3 of the array of `A`: once `C` has been derived, the argument list of `B` ends
in `-y` and no longer contains `-x`. The argument list of `A` is unaffected. -/
theorem C1_sibling_bakes_share_backing_array :
    ∃ h A h1 B h2 C,
      shP.2.call growslice (fun _ => 0) shP.1 [.str "a", .str "b", .str "c"]
        = (h, .ok (.command A)) ∧
      A.call growslice (fun _ => 0) h [.str "-x"] = (h1, .ok (.command B)) ∧
      A.call growslice (fun _ => 0) h1 [.str "-y"] = (h2, .ok (.command C)) ∧
      A.tmpl.args = ⟨2, 3, 4⟩ ∧
      A.tmpl.args.read h = ["a", "b", "c"] ∧
      A.tmpl.args.read h2 = ["a", "b", "c"] ∧
      B.tmpl.args.read h1 = ["a", "b", "c", "-x"] ∧
      B.tmpl.args.read h2 = ["a", "b", "c", "-y"] ∧
      C.tmpl.args.read h2 = ["a", "b", "c", "-y"] :=
  ⟨_, _, _, _, _, _, rfl, rfl, rfl, rfl, rfl, rfl, rfl, rfl, rfl⟩

/-- C2: at `A = Sh("p")` in a host without variables, `A(Env{"FOO": "bar"})` and
`A.BakeEnv(Env{"FOO": "bar"})` store `FOO` in the map that the template of `A` refers
to: `FOO` is absent from the environment of `A` before the bake and is `bar` after. -/
theorem C2_bake_env_writes_shared_map :
    ∃ h A h1 B h2 B2,
      shP = (h, A) ∧
      A.call growslice (fun _ => 0) h [.env ((∅ : Env).insert "FOO" "bar")]
        = (h1, .ok (.command B)) ∧
      A.BakeEnv h ((∅ : Env).insert "FOO" "bar") = (h2, .ok B2) ∧
      A.tmpl.getenv h "FOO" = none ∧
      A.tmpl.getenv h1 "FOO" = some "bar" ∧
      A.tmpl.getenv h2 "FOO" = some "bar" ∧
      B.tmpl.env = A.tmpl.env :=
  ⟨_, _, _, _, _, _, rfl, rfl, rfl, rfl, rfl, rfl, rfl⟩


/-! ## Running -/

theorem okLoop_iff (c : Int) (l : List Int) : okLoop c l = true ↔ c ∈ l := by
  induction l with
  | nil => simp [okLoop]
  | cons a l ih =>
    unfold okLoop
    by_cases hca : c = a
    · simp [hca]
    · simp [hca, ih]

/-- Once `Start` has returned a handle, `Run` is decided by the loop over the accepted
exit codes applied to the code the process exits with. -/
theorem Run_of_Start (os : ExecCmd → Int) (h h1 : Heap) (f : Command) (rc : RunningCommand)
    (hstart : f.Start h = (h1, .ok rc)) :
    f.Run os h = if okLoop (os rc.cmd) (f.tmpl.OkExit.getD []) then (h1, .ok ())
      else (h1, .error (.FailureExitCode f.tmpl.cmd (os rc.cmd))) := by
  simp [Command.Run, hstart, RunningCommand.Wait, RunningCommand.GetExitCode, Command.expose]

/-- A template without input, output and error bindings starts without panic and
resolves no stream. -/
theorem Start_of_unbound (h : Heap) (f : Command) (hin : f.tmpl.In = none)
    (hout : f.tmpl.Out = none) (herr : f.tmpl.Err = none) :
    ∃ rc, f.Start h = (h, .ok rc) := by
  simp [Command.Start, Command.expose, hin, hout, herr]

/-- C3: when `Start` has returned a handle and the process exits with code `c`, `Run`
returns normally exactly when `c` is among the accepted exit codes of the template,
and otherwise panics with `FailureExitCode` carrying the program name and `c`. With
the options of `Sh`, code 0 succeeds and code 2 fails with code 2; after baking
`OkExit: [0, 2]`, code 2 succeeds. -/
theorem C3_run_classifies_exit_code (os : ExecCmd → Int) (h h1 : Heap) (f : Command)
    (rc : RunningCommand) (c : Int) (hstart : f.Start h = (h1, .ok rc))
    (hc : os rc.cmd = c) :
    (f.Run os h = (h1, .ok ()) ↔ c ∈ f.tmpl.OkExit.getD []) ∧
    (c ∉ f.tmpl.OkExit.getD [] →
      f.Run os h = (h1, .error (.FailureExitCode f.tmpl.cmd c))) ∧
    (∀ (host : Env) (h0 : Heap) (p : String),
      (Sh host h0 p).2.Run (fun _ => 0) (Sh host h0 p).1 = ((Sh host h0 p).1, .ok ()) ∧
      (Sh host h0 p).2.Run (fun _ => 2) (Sh host h0 p).1
        = ((Sh host h0 p).1, .error (.FailureExitCode p 2)) ∧
      ((Sh host h0 p).2.BakeOpts [{ OkExit := some [0, 2] }]).Run (fun _ => 2) (Sh host h0 p).1
        = ((Sh host h0 p).1, .ok ())) := by
  subst hc
  rw [Run_of_Start os h h1 f rc hstart]
  refine ⟨?_, ?_, ?_⟩
  · by_cases hm : os rc.cmd ∈ f.tmpl.OkExit.getD []
    · simp [(okLoop_iff _ _).mpr hm, hm]
    · have : okLoop (os rc.cmd) (f.tmpl.OkExit.getD []) = false := by
        rw [← Bool.not_eq_true, okLoop_iff]; exact hm
      simp [this, hm]
  · intro hm
    have : okLoop (os rc.cmd) (f.tmpl.OkExit.getD []) = false := by
      rw [← Bool.not_eq_true, okLoop_iff]; exact hm
    simp [this]
  · intro host h0 p
    refine ⟨?_, ?_, ?_⟩
    · obtain ⟨rc0, hs⟩ := Start_of_unbound (Sh host h0 p).1 (Sh host h0 p).2 rfl rfl rfl
      rw [Run_of_Start _ _ _ _ _ hs]; rfl
    · obtain ⟨rc0, hs⟩ := Start_of_unbound (Sh host h0 p).1 (Sh host h0 p).2 rfl rfl rfl
      rw [Run_of_Start _ _ _ _ _ hs]; rfl
    · obtain ⟨rc0, hs⟩ := Start_of_unbound (Sh host h0 p).1
        ((Sh host h0 p).2.BakeOpts [{ OkExit := some [0, 2] }]) rfl rfl rfl
      rw [Run_of_Start _ _ _ _ _ hs]; rfl


/-- Witness of C3 at `Sh("p")` with a process that exits with code 2: `Start` returns a
handle, and `Run` panics with `FailureExitCode` carrying `p` and 2. -/
theorem C3_run_classifies_exit_code_witness :
    shP.2.Start shP.1
      = (shP.1, .ok (NewRunningCommand { Path := "p", Args := ["p"], Env := some [] })) ∧
    (fun _ : ExecCmd => (2 : Int)) { Path := "p", Args := ["p"], Env := some [] } = 2 ∧
    shP.2.Run (fun _ => 2) shP.1 = (shP.1, .error (.FailureExitCode "p" 2)) :=
  ⟨rfl, rfl, (C3_run_classifies_exit_code (fun _ => 2) shP.1 shP.1 shP.2
    (NewRunningCommand { Path := "p", Args := ["p"], Env := some [] }) 2 rfl rfl).2.1
      (by decide)⟩

/-! ## Baking the environment -/

/-- On a non-nil map the loop of `bakeEnv` does not panic; it touches no other map and
nothing else in the heap, and leaves each key as the overlay says. -/
theorem bakeEnvLoop_some (r : Nat) :
    ∀ (l : List (Sigma fun _ : String => String)) (h : Heap), l.NodupKeys →
      ∃ h1, bakeEnvLoop (some r) l h = (h1, .ok ()) ∧
        h1.arrays = h.arrays ∧ h1.nextArray = h.nextArray ∧ h1.nextMap = h.nextMap ∧
        h1.nextStream = h.nextStream ∧
        (∀ r', r' ≠ r → h1.maps r' = h.maps r') ∧
        ∀ k, (h1.maps r).lookup k =
          match l.dlookup k with
          | some v => if v = "" then none else some v
          | none => (h.maps r).lookup k := by
  intro l
  induction l with
  | nil => intro h _; exact ⟨h, rfl, rfl, rfl, rfl, rfl, fun _ _ => rfl, fun k => by simp⟩
  | cons e rest ih =>
    intro h hnd
    obtain ⟨k0, v0⟩ := e
    rw [List.nodupKeys_cons] at hnd
    obtain ⟨hk0, hrest⟩ := hnd
    by_cases hv : v0 = ""
    · obtain ⟨h1, hrun, ha, hna, hnm, hns, hother, hlook⟩ := ih (h.mapDelete r k0) hrest
      refine ⟨h1, ?_, ha, hna, hnm, hns, ?_, ?_⟩
      · simp only [bakeEnvLoop, hv, if_true]; exact hrun
      · intro r' hr'
        rw [hother r' hr']
        simp [Heap.mapDelete, Function.update_noteq hr']
      · intro k
        rw [hlook k]
        by_cases hk : k = k0
        · subst hk
          rw [List.dlookup_eq_none.mpr hk0, List.dlookup_cons_eq]
          simp [Heap.mapDelete, hv]
        · rw [List.dlookup_cons_ne _ _ hk]
          cases hd : List.dlookup k rest with
          | some v => rfl
          | none => simp [Heap.mapDelete, AList.lookup_erase_ne hk]
    · obtain ⟨h1, hrun, ha, hna, hnm, hns, hother, hlook⟩ := ih (h.mapSet r k0 v0) hrest
      refine ⟨h1, ?_, ha, hna, hnm, hns, ?_, ?_⟩
      · simp only [bakeEnvLoop, hv, if_false]; exact hrun
      · intro r' hr'
        rw [hother r' hr']
        simp [Heap.mapSet, Function.update_noteq hr']
      · intro k
        rw [hlook k]
        by_cases hk : k = k0
        · subst hk
          rw [List.dlookup_eq_none.mpr hk0, List.dlookup_cons_eq]
          simp [Heap.mapSet, hv]
        · rw [List.dlookup_cons_ne _ _ hk]
          cases hd : List.dlookup k rest with
          | some v => rfl
          | none => simp [Heap.mapSet, AList.lookup_insert_ne hk]

/-- The effect of `bakeEnv` on a template whose map is not nil. -/
theorem bakeEnv_some (h : Heap) (cmdt : commandTemplate) (E : Env) (r : Nat)
    (hr : cmdt.env = some r) :
    ∃ h1, cmdt.bakeEnv h E = (h1, .ok cmdt) ∧
      h1.arrays = h.arrays ∧ h1.nextArray = h.nextArray ∧ h1.nextMap = h.nextMap ∧
      h1.nextStream = h.nextStream ∧
      (∀ r', r' ≠ r → h1.maps r' = h.maps r') ∧
      ∀ k, cmdt.getenv h1 k =
        match E.lookup k with
        | some v => if v = "" then none else some v
        | none => cmdt.getenv h k := by
  obtain ⟨h1, hrun, ha, hna, hnm, hns, hother, hlook⟩ := bakeEnvLoop_some r E.entries h E.nodupKeys
  refine ⟨h1, ?_, ha, hna, hnm, hns, hother, ?_⟩
  · simp [commandTemplate.bakeEnv, hr, hrun]
  · intro k
    simp only [commandTemplate.getenv, hr]
    exact hlook k

/-- C5: baking the overlay `E` into a template whose environment is the map `r` does
not panic and defines the environment key by key: a key that `E` maps to the empty
string is absent, a key that `E` maps to a non-empty `v` has value `v`, and a key not
in `E` keeps what it had (its value, or absent). Baking `FOO=bar` and then `FOO=`
leaves `FOO` absent, whatever the map held before. -/
theorem C5_bake_env_key_by_key (h : Heap) (cmdt : commandTemplate) (E : Env) (r : Nat)
    (hr : cmdt.env = some r) :
    (∃ h1, cmdt.bakeEnv h E = (h1, .ok cmdt) ∧
      ∀ k,
        (E.lookup k = some "" → cmdt.getenv h1 k = none) ∧
        (∀ v, v ≠ "" → E.lookup k = some v → cmdt.getenv h1 k = some v) ∧
        (E.lookup k = none → cmdt.getenv h1 k = cmdt.getenv h k)) ∧
    (∃ h1 h2,
      cmdt.bakeEnv h ((∅ : Env).insert "FOO" "bar") = (h1, .ok cmdt) ∧
      cmdt.bakeEnv h1 ((∅ : Env).insert "FOO" "") = (h2, .ok cmdt) ∧
      cmdt.getenv h1 "FOO" = some "bar" ∧
      cmdt.getenv h2 "FOO" = none) := by
  constructor
  · obtain ⟨h1, hrun, -, -, -, -, -, hlook⟩ := bakeEnv_some h cmdt E r hr
    refine ⟨h1, hrun, fun k => ⟨?_, ?_, ?_⟩⟩
    · intro hk; rw [hlook k, hk]; rfl
    · intro v hv hk; rw [hlook k, hk]; simp [hv]
    · intro hk; rw [hlook k, hk]
  · obtain ⟨h1, hrun1, -, -, -, -, -, hlook1⟩ :=
      bakeEnv_some h cmdt ((∅ : Env).insert "FOO" "bar") r hr
    obtain ⟨h2, hrun2, -, -, -, -, -, hlook2⟩ :=
      bakeEnv_some h1 cmdt ((∅ : Env).insert "FOO" "") r hr
    refine ⟨h1, h2, hrun1, hrun2, ?_, ?_⟩
    · rw [hlook1, AList.lookup_insert]; rfl
    · rw [hlook2, AList.lookup_insert]; rfl

/-- Witness of C5 at the template of `Sh("p")`, whose environment is map 0, with the
overlay `FOO=bar`. -/
theorem C5_bake_env_key_by_key_witness :
    shP.2.tmpl.env = some 0 ∧
    ∃ h1 h2,
      shP.2.tmpl.bakeEnv shP.1 ((∅ : Env).insert "FOO" "bar") = (h1, .ok shP.2.tmpl) ∧
      shP.2.tmpl.bakeEnv h1 ((∅ : Env).insert "FOO" "") = (h2, .ok shP.2.tmpl) ∧
      shP.2.tmpl.getenv h1 "FOO" = some "bar" ∧
      shP.2.tmpl.getenv h2 "FOO" = none :=
  ⟨rfl, (C5_bake_env_key_by_key shP.1 shP.2.tmpl ((∅ : Env).insert "FOO" "bar") 0 rfl).2⟩

/-! ## Baking options -/

/-- What one options overlay does to each field of a template. -/
theorem bakeOpt_fields (cmdt : commandTemplate) (O : Opts) :
    ((bakeOpt cmdt O).Cwd = if O.Cwd ≠ "" then O.Cwd else cmdt.Cwd) ∧
    ((bakeOpt cmdt O).In = if O.In ≠ none then O.In else cmdt.In) ∧
    ((bakeOpt cmdt O).Out = if O.Out ≠ none then O.Out else cmdt.Out) ∧
    ((bakeOpt cmdt O).Err = if O.Err ≠ none then O.Err else cmdt.Err) ∧
    ((bakeOpt cmdt O).OkExit = if O.OkExit ≠ none then O.OkExit else cmdt.OkExit) ∧
    (bakeOpt cmdt O).cmd = cmdt.cmd ∧
    (bakeOpt cmdt O).args = cmdt.args ∧
    (bakeOpt cmdt O).env = cmdt.env := by
  rcases O with ⟨cwd, i, o, e, ok⟩
  refine ⟨?_, ?_, ?_, ?_, ?_, ?_, ?_, ?_⟩ <;>
    (by_cases h1 : cwd = "" <;> cases i <;> cases o <;> cases e <;> cases ok <;>
      simp [bakeOpt, h1])

theorem bakeOpts_singleton (cmdt : commandTemplate) (O : Opts) :
    cmdt.bakeOpts [O] = bakeOpt cmdt O := rfl

/-- C6: baking the options overlay `O` sets the working directory to `O.Cwd` when that
is not the empty string, each of `In`, `Out` and `Err` to the value of `O` when that is
not nil, and the accepted exit codes to `O.OkExit` when that is not nil; every other
field of the template is unchanged. Baking `Cwd: "/tmp"` and then `OkExit: [1]` gives
`Cwd = "/tmp"` and `OkExit = [1]`. -/
theorem C6_bake_opts_overlays_set_fields (cmdt : commandTemplate) (O : Opts) :
    ((cmdt.bakeOpts [O]).Cwd = if O.Cwd ≠ "" then O.Cwd else cmdt.Cwd) ∧
    ((cmdt.bakeOpts [O]).In = if O.In ≠ none then O.In else cmdt.In) ∧
    ((cmdt.bakeOpts [O]).Out = if O.Out ≠ none then O.Out else cmdt.Out) ∧
    ((cmdt.bakeOpts [O]).Err = if O.Err ≠ none then O.Err else cmdt.Err) ∧
    ((cmdt.bakeOpts [O]).OkExit = if O.OkExit ≠ none then O.OkExit else cmdt.OkExit) ∧
    (cmdt.bakeOpts [O]).cmd = cmdt.cmd ∧
    (cmdt.bakeOpts [O]).args = cmdt.args ∧
    (cmdt.bakeOpts [O]).env = cmdt.env ∧
    ((cmdt.bakeOpts [{ Cwd := "/tmp" }]).bakeOpts [{ OkExit := some [1] }]).Cwd = "/tmp" ∧
    ((cmdt.bakeOpts [{ Cwd := "/tmp" }]).bakeOpts [{ OkExit := some [1] }]).OkExit = some [1] ∧
    (cmdt.bakeOpts [{ Cwd := "/tmp" }, { OkExit := some [1] }]).Cwd = "/tmp" ∧
    (cmdt.bakeOpts [{ Cwd := "/tmp" }, { OkExit := some [1] }]).OkExit = some [1] := by
  rw [bakeOpts_singleton]
  obtain ⟨a, b, c, d, e, f, g, i⟩ := bakeOpt_fields cmdt O
  exact ⟨a, b, c, d, e, f, g, i, rfl, rfl, rfl, rfl⟩

/-- C7: baking `OkExit: codes` replaces the accepted exit codes. When `codes` does not
contain 0 and the process of the baked Command exits with code 0, `Run` panics with
`FailureExitCode` carrying code 0. -/
theorem C7_ok_exit_replaces_default (grow : Nat → Nat → Nat) (os : ExecCmd → Int)
    (h h1 : Heap) (f : Command) (codes : List Int) (rc : RunningCommand)
    (hzero : (0 : Int) ∉ codes)
    (hstart : (f.BakeOpts [{ OkExit := some codes }]).Start h = (h1, .ok rc))
    (hexit : os rc.cmd = 0) :
    f.call grow os h [.opts { OkExit := some codes }]
      = (h, .ok (.command (f.BakeOpts [{ OkExit := some codes }]))) ∧
    (f.BakeOpts [{ OkExit := some codes }]).tmpl.OkExit = some codes ∧
    (f.BakeOpts [{ OkExit := some codes }]).Run os h
      = (h1, .error (.FailureExitCode f.tmpl.cmd 0)) := by
  refine ⟨rfl, rfl, ?_⟩
  rw [Run_of_Start os h h1 _ rc hstart, hexit]
  have hk : (f.BakeOpts [{ OkExit := some codes }]).tmpl.OkExit = some codes := rfl
  have hc : (f.BakeOpts [{ OkExit := some codes }]).tmpl.cmd = f.tmpl.cmd := rfl
  have : okLoop 0 codes = false := by
    rw [← Bool.not_eq_true, okLoop_iff]; exact hzero
  simp [hk, hc, this]

/-- Witness of C7 at `Sh("p")` with `OkExit: [1]` and a process that exits with code 0. -/
theorem C7_ok_exit_replaces_default_witness :
    (0 : Int) ∉ [(1 : Int)] ∧
    (shP.2.BakeOpts [{ OkExit := some [1] }]).Start shP.1
      = (shP.1, .ok (NewRunningCommand { Path := "p", Args := ["p"], Env := some [] })) ∧
    (shP.2.BakeOpts [{ OkExit := some [1] }]).Run (fun _ => 0) shP.1
      = (shP.1, .error (.FailureExitCode "p" 0)) :=
  ⟨by decide, rfl, (C7_ok_exit_replaces_default growslice (fun _ => 0) shP.1 shP.1 shP.2 [1]
    (NewRunningCommand { Path := "p", Args := ["p"], Env := some [] })
    (by decide) rfl rfl).2.2⟩

/-! ## Dispatch on the kind of a modifier -/

/-- On a template whose map is not nil, the loop of `closure` panics exactly at the
first argument that is not a modifier, with that argument; without such an argument
it returns a template whose map is not nil either. -/
theorem closureLoop_spec (grow : Nat → Nat → Nat) (args : List Value) :
    ∀ (h : Heap) (cmdt : commandTemplate), cmdt.env ≠ none →
      match args.find? (fun v => !v.isModifier) with
      | some w => ∃ h1, closureLoop grow args h cmdt
          = (h1, .error (.IncomprehensibleCommandModifier w))
      | none => ∃ h1 c, closureLoop grow args h cmdt = (h1, .ok c) ∧ c.env ≠ none := by
  induction args with
  | nil => intro h cmdt henv; exact ⟨h, cmdt, rfl, henv⟩
  | cons a rest ih =>
    intro h cmdt henv
    cases a with
    | str s =>
      simpa [closureLoop, Value.isModifier] using
        ih (cmdt.bakeArgs grow h [s]).1 (cmdt.bakeArgs grow h [s]).2 henv
    | env e =>
      obtain ⟨r, hr⟩ := Option.ne_none_iff_exists'.mp henv
      obtain ⟨h1, hrun, -⟩ := bakeEnv_some h cmdt e r hr
      simpa [closureLoop, Value.isModifier, hrun] using ih h1 cmdt henv
    | clearEnv =>
      simpa [closureLoop, Value.isModifier] using
        ih (cmdt.clearEnv h).1 (cmdt.clearEnv h).2 (by simp [commandTemplate.clearEnv])
    | opts o =>
      have he : (cmdt.bakeOpts [o]).env ≠ none := by
        rw [bakeOpts_singleton, (bakeOpt_fields cmdt o).2.2.2.2.2.2.2]; exact henv
      simpa [closureLoop, Value.isModifier] using ih h (cmdt.bakeOpts [o]) he
    | exposeFlag => exact ⟨h, by simp [closureLoop]⟩
    | other n => exact ⟨h, by simp [closureLoop]⟩


/-- C8: for a Command whose environment map is not nil, invoked with a non-empty
argument list that does not start with the package-private `expose` marker: the call
panics with `IncomprehensibleCommandModifier` exactly when some argument is not a
string, an `Env`, a `ClearEnv` or an `Opts`; the panic carries the first such argument;
it is the result of the invocation itself, whatever the operating system would do with
a process; and without such an argument the call returns a Command. -/
theorem C8_unrecognized_modifier_panics (grow : Nat → Nat → Nat) (os : ExecCmd → Int)
    (h : Heap) (f : Command) (a : Value) (rest : List Value)
    (hflag : a ≠ Value.exposeFlag) (henv : f.tmpl.env ≠ none) :
    ((∃ h1 w, f.call grow os h (a :: rest)
        = (h1, .error (.IncomprehensibleCommandModifier w)))
      ↔ ∃ v ∈ a :: rest, v.isModifier = false) ∧
    (∀ w, (∃ h1, f.call grow os h (a :: rest)
        = (h1, .error (.IncomprehensibleCommandModifier w)))
      ↔ (a :: rest).find? (fun v => !v.isModifier) = some w) ∧
    (∀ os2, f.call grow os2 h (a :: rest) = f.call grow os h (a :: rest)) ∧
    ((∀ v ∈ a :: rest, v.isModifier = true) →
      ∃ h1 B, f.call grow os h (a :: rest) = (h1, .ok (.command B))) := by
  have hcall : ∀ os2, f.call grow os2 h (a :: rest) =
      match closureLoop grow (a :: rest) h f.tmpl with
      | (h1, .error p) => (h1, .error p)
      | (h1, .ok c) => (h1, .ok (.command (enclose c))) := by
    intro os2
    cases a with
    | exposeFlag => exact absurd rfl hflag
    | _ => rfl
  have hspec := closureLoop_spec grow (a :: rest) h f.tmpl henv
  have hfind : ∀ w, (∃ h1, f.call grow os h (a :: rest)
        = (h1, .error (.IncomprehensibleCommandModifier w)))
      ↔ (a :: rest).find? (fun v => !v.isModifier) = some w := by
    intro w
    rw [hcall os]
    cases hf : (a :: rest).find? (fun v => !v.isModifier) with
    | some w2 =>
      rw [hf] at hspec
      obtain ⟨h1, hrun⟩ := hspec
      rw [hrun]
      constructor
      · rintro ⟨h2, heq⟩
        simp only [Prod.mk.injEq, Except.error.injEq,
          Panic.IncomprehensibleCommandModifier.injEq] at heq
        rw [heq.2]
      · intro heq
        cases heq
        exact ⟨h1, rfl⟩
    | none =>
      rw [hf] at hspec
      obtain ⟨h1, c, hrun, -⟩ := hspec
      rw [hrun]
      simp
  refine ⟨?_, hfind, fun os2 => by rw [hcall os2, hcall os], ?_⟩
  · constructor
    · rintro ⟨h1, w, hw⟩
      have hs := (hfind w).mp ⟨h1, hw⟩
      refine ⟨w, List.mem_of_find?_eq_some hs, ?_⟩
      simpa using List.find?_some hs
    · rintro ⟨v, hv, hvm⟩
      cases hf : (a :: rest).find? (fun v => !v.isModifier) with
      | some w =>
        obtain ⟨h1, hw⟩ := (hfind w).mpr hf
        exact ⟨h1, w, hw⟩
      | none =>
        rw [List.find?_eq_none] at hf
        have := hf v hv
        simp [hvm] at this
  · intro hall
    have hf : (a :: rest).find? (fun v => !v.isModifier) = none := by
      rw [List.find?_eq_none]
      intro v hv
      simp [hall v hv]
    rw [hf] at hspec
    obtain ⟨h1, c, hrun, -⟩ := hspec
    exact ⟨h1, enclose c, by rw [hcall os, hrun]⟩

/-- Witness of C8 at `Sh("p")("-l", v)` where `v` is of an unrecognized type: the call
panics with `IncomprehensibleCommandModifier` carrying `v`. -/
theorem C8_unrecognized_modifier_panics_witness :
    Value.str "-l" ≠ Value.exposeFlag ∧
    shP.2.tmpl.env ≠ none ∧
    ∃ h1, shP.2.call growslice (fun _ => 0) shP.1 [.str "-l", .other 7]
      = (h1, .error (.IncomprehensibleCommandModifier (.other 7))) :=
  ⟨nofun, nofun, ((C8_unrecognized_modifier_panics growslice (fun _ => 0) shP.1 shP.2
    (.str "-l") [.other 7] nofun nofun).2.1 (.other 7)).mpr rfl⟩

/-- C9: each named operation returns the same heap and the same Command, hence the
same program, argument list, environment and options, as invoking the Command with the
one argument of that kind; `BakeEnv` also panics in the same cases as the invocation. -/
theorem C9_named_operations_agree (grow : Nat → Nat → Nat) (os : ExecCmd → Int) (h : Heap)
    (f : Command) :
    (∀ s : String, f.call grow os h [.str s]
      = ((f.BakeArgs grow h [s]).1, .ok (.command (f.BakeArgs grow h [s]).2))) ∧
    (∀ e : Env, f.call grow os h [.env e]
      = match f.BakeEnv h e with
        | (h1, .ok c) => (h1, .ok (.command c))
        | (h1, .error p) => (h1, .error p)) ∧
    (f.call grow os h [.clearEnv] = ((f.ClearEnv h).1, .ok (.command (f.ClearEnv h).2))) ∧
    (∀ o : Opts, f.call grow os h [.opts o] = (h, .ok (.command (f.BakeOpts [o])))) := by
  refine ⟨fun s => rfl, fun e => ?_, rfl, fun o => rfl⟩
  simp only [Command.call, closure, closureLoop, Command.BakeEnv, Command.expose]
  rcases hb : f.tmpl.bakeEnv h e with ⟨h1, _ | c⟩ <;> rfl

/-- C10: invoking a Command with no arguments runs `Run` on a Command over the same
template: it succeeds, returning the nil Command, exactly when `Run` returns normally,
panics exactly when `Run` panics and with the same panic (so with `FailureExitCode` in
the same cases), reaches the same heap, and never returns a usable Command. -/
theorem C10_empty_call_is_run (grow : Nat → Nat → Nat) (os : ExecCmd → Int) (h : Heap)
    (f : Command) :
    enclose f.expose = f ∧
    (f.call grow os h []
      = match f.Run os h with
        | (h1, .ok _) => (h1, .ok .nil)
        | (h1, .error p) => (h1, .error p)) ∧
    (∀ h1, f.call grow os h [] = (h1, .ok .nil) ↔ f.Run os h = (h1, .ok ())) ∧
    (∀ h1 p, f.call grow os h [] = (h1, .error p) ↔ f.Run os h = (h1, .error p)) ∧
    (∀ h1 n c, f.call grow os h [] = (h1, .error (.FailureExitCode n c))
      ↔ f.Run os h = (h1, .error (.FailureExitCode n c))) ∧
    (∀ h1 B, f.call grow os h [] ≠ (h1, .ok (.command B))) := by
  have hcall : f.call grow os h []
      = match f.Run os h with
        | (h1, .ok _) => (h1, .ok .nil)
        | (h1, .error p) => (h1, .error p) := by
    have he : enclose f.tmpl = f := rfl
    simp only [Command.call, closure, he]
    rcases f.Run os h with ⟨h2, p2 | u⟩ <;> rfl
  have herr : ∀ h1 p, f.call grow os h [] = (h1, .error p) ↔ f.Run os h = (h1, .error p) := by
    intro h1 p
    rw [hcall]
    rcases f.Run os h with ⟨h2, p2 | u⟩ <;> simp
  refine ⟨rfl, hcall, ?_, herr, fun h1 n c => herr h1 _, ?_⟩
  · intro h1
    rw [hcall]
    rcases f.Run os h with ⟨h2, p2 | u⟩ <;> simp
  · intro h1 B
    rw [hcall]
    rcases f.Run os h with ⟨h2, p2 | u⟩ <;> simp

/-! ## The accepted exit codes along a chain of bakes -/

theorem bakeOpts_keeps_OkExit (opts : List Opts) :
    ∀ (cmdt : commandTemplate), (∀ o ∈ opts, o.OkExit = none) →
      (cmdt.bakeOpts opts).OkExit = cmdt.OkExit ∧ (cmdt.bakeOpts opts).cmd = cmdt.cmd := by
  induction opts with
  | nil => intro cmdt _; exact ⟨rfl, rfl⟩
  | cons o rest ih =>
    intro cmdt hall
    have ho : o.OkExit = none := hall o (List.mem_cons_self _ _)
    have hrest := ih (bakeOpt cmdt o) (fun o2 h2 => hall o2 (List.mem_cons_of_mem _ h2))
    have hf := bakeOpt_fields cmdt o
    have h5 : (bakeOpt cmdt o).OkExit = cmdt.OkExit := by
      rw [hf.2.2.2.2.1, ho]; simp
    have h6 : (bakeOpt cmdt o).cmd = cmdt.cmd := hf.2.2.2.2.2.1
    constructor
    · show ((bakeOpt cmdt o).bakeOpts rest).OkExit = cmdt.OkExit
      rw [hrest.1, h5]
    · show ((bakeOpt cmdt o).bakeOpts rest).cmd = cmdt.cmd
      rw [hrest.2, h6]

/-- When `bakeEnv` returns, it returns the template it was given. -/
theorem bakeEnv_ok (h h1 : Heap) (cmdt c : commandTemplate) (e : Env)
    (hb : cmdt.bakeEnv h e = (h1, .ok c)) : c = cmdt := by
  unfold commandTemplate.bakeEnv at hb
  rcases hl : bakeEnvLoop cmdt.env e.entries h with ⟨h2, p | u⟩
  · rw [hl] at hb; simp at hb
  · rw [hl] at hb
    simp only [Prod.mk.injEq, Except.ok.injEq] at hb; exact hb.2.symm

/-- The loop of `closure` keeps the program, and keeps the accepted exit codes when no
argument sets them. -/
theorem closureLoop_keeps_OkExit (grow : Nat → Nat → Nat) (args : List Value) :
    ∀ (h h1 : Heap) (cmdt c : commandTemplate),
      (∀ v ∈ args, v.setsOkExit = false) →
      closureLoop grow args h cmdt = (h1, .ok c) →
      c.OkExit = cmdt.OkExit ∧ c.cmd = cmdt.cmd := by
  induction args with
  | nil =>
    intro h h1 cmdt c _ hrun
    simp only [closureLoop, Prod.mk.injEq, Except.ok.injEq] at hrun
    rw [← hrun.2]; exact ⟨rfl, rfl⟩
  | cons a rest ih =>
    intro h h1 cmdt c hall hrun
    have hrest : ∀ v ∈ rest, v.setsOkExit = false :=
      fun v hv => hall v (List.mem_cons_of_mem _ hv)
    cases a with
    | str s =>
      simp only [closureLoop] at hrun
      exact ih (cmdt.bakeArgs grow h [s]).1 h1 (cmdt.bakeArgs grow h [s]).2 c hrest hrun
    | env e =>
      simp only [closureLoop] at hrun
      rcases hb : cmdt.bakeEnv h e with ⟨h2, p | c2⟩
      · rw [hb] at hrun; simp at hrun
      · rw [hb] at hrun
        have hc2 : c2 = cmdt := bakeEnv_ok h h2 cmdt c2 e hb
        subst hc2
        exact ih _ _ _ _ hrest hrun
    | clearEnv =>
      simp only [closureLoop] at hrun
      exact ih (cmdt.clearEnv h).1 h1 (cmdt.clearEnv h).2 c hrest hrun
    | opts o =>
      simp only [closureLoop] at hrun
      have ho : o.OkExit = none := by
        have := hall (.opts o) (List.mem_cons_self _ _)
        simpa [Value.setsOkExit] using this
      have hk := bakeOpts_keeps_OkExit [o] cmdt (by simpa using ho)
      have := ih _ _ _ _ hrest hrun
      exact ⟨this.1.trans hk.1, this.2.trans hk.2⟩
    | exposeFlag => simp [closureLoop] at hrun
    | other n => simp [closureLoop] at hrun

/-- Every Command derived by bakes that do not set `OkExit` has the program and the
accepted exit codes of the Command it is derived from. -/
theorem derived_keeps_OkExit (grow : Nat → Nat → Nat) (os : ExecCmd → Int) (f g : Command)
    (hd : DerivedKeepingOkExit grow os f g) :
    g.tmpl.OkExit = f.tmpl.OkExit ∧ g.tmpl.cmd = f.tmpl.cmd := by
  induction hd with
  | base => exact ⟨rfl, rfl⟩
  | call g k h h1 args _ hall hcall ih =>
    cases args with
    | nil =>
      simp only [Command.call, closure] at hcall
      split at hcall <;> simp at hcall
    | cons a rest =>
      have hloop : ∃ c, closureLoop grow (a :: rest) h g.tmpl = (h1, .ok c) ∧ k = enclose c := by
        cases a with
        | exposeFlag => simp [Command.call, closure] at hcall
        | _ =>
          simp only [Command.call, closure] at hcall
          split at hcall
          · simp at hcall
          · rename_i h2 c heq
            simp only [Prod.mk.injEq, Except.ok.injEq, Result.command.injEq] at hcall
            exact ⟨c, by rw [heq, hcall.1], hcall.2.symm⟩
      obtain ⟨c, hc, rfl⟩ := hloop
      have := closureLoop_keeps_OkExit grow (a :: rest) h h1 g.tmpl c
        (fun v hv => (hall v hv).2) hc
      exact ⟨this.1.trans ih.1, this.2.trans ih.2⟩
  | bakeArgs g h ss _ ih => exact ih
  | bakeEnv g k h h1 e _ hb ih =>
    have hk : k = g := by
      simp only [Command.BakeEnv, Command.expose] at hb
      rcases hb2 : g.tmpl.bakeEnv h e with ⟨h2, p | c⟩
      · rw [hb2] at hb; simp at hb
      · rw [hb2] at hb
        simp only [Prod.mk.injEq, Except.ok.injEq] at hb
        rw [← hb.2, bakeEnv_ok h h2 g.tmpl c e hb2]; rfl
    rw [hk]; exact ih
  | clearEnv g h _ ih => exact ih
  | bakeOpts g opts _ hall ih =>
    have := bakeOpts_keeps_OkExit opts g.tmpl hall
    exact ⟨this.1.trans ih.1, this.2.trans ih.2⟩

/-- C11: `Sh(p)` has program `p`, no arguments and accepted exit codes `[0]`; every
Command derived from it by bakes none of whose options overlays sets `OkExit` still
has program `p` and accepted exit codes `[0]`, so that, once `Start` has returned a
handle, its `Run` returns normally exactly when the process exits with code 0, and
otherwise panics with `FailureExitCode`. -/
theorem C11_default_ok_exit_is_zero (grow : Nat → Nat → Nat) (os : ExecCmd → Int)
    (host : Env) (h0 : Heap) (p : String) (g : Command)
    (hd : DerivedKeepingOkExit grow os (Sh host h0 p).2 g) :
    (Sh host h0 p).2.tmpl.cmd = p ∧
    (Sh host h0 p).2.tmpl.args.read (Sh host h0 p).1 = [] ∧
    (Sh host h0 p).2.tmpl.OkExit = some [0] ∧
    g.tmpl.cmd = p ∧
    g.tmpl.OkExit = some [0] ∧
    (∀ (os2 : ExecCmd → Int) (h h1 : Heap) (rc : RunningCommand),
      g.Start h = (h1, .ok rc) →
        (g.Run os2 h = (h1, .ok ()) ↔ os2 rc.cmd = 0) ∧
        (os2 rc.cmd ≠ 0 → g.Run os2 h = (h1, .error (.FailureExitCode p (os2 rc.cmd))))) := by
  obtain ⟨hok, hcmd⟩ := derived_keeps_OkExit grow os _ g hd
  have hok2 : g.tmpl.OkExit = some [0] := hok
  have hcmd2 : g.tmpl.cmd = p := hcmd
  refine ⟨rfl, rfl, rfl, hcmd2, hok2, ?_⟩
  intro os2 h h1 rc hstart
  rw [Run_of_Start os2 h h1 g rc hstart, hok2, hcmd2]
  by_cases hz : os2 rc.cmd = 0
  · simp [hz, okLoop]
  · simp [hz, okLoop]

/-- Witness of C11 at `Sh("p")("-l", Env{"FOO": "bar"}).BakeOpts(Opts{Cwd: "/tmp"})`. -/
theorem C11_default_ok_exit_is_zero_witness :
    DerivedKeepingOkExit growslice (fun _ => 0) (Sh ∅ Heap.empty "p").2
      ((enclose { cmd := "p", args := ⟨0, 1, 1⟩, env := some 0, OkExit := some [0] }).BakeOpts
        [{ Cwd := "/tmp" }]) ∧
    ((enclose { cmd := "p", args := ⟨0, 1, 1⟩, env := some 0, OkExit := some [0] }).BakeOpts
        [{ Cwd := "/tmp" }]).tmpl.OkExit = some [0] :=
  have hd : DerivedKeepingOkExit growslice (fun _ => 0) (Sh ∅ Heap.empty "p").2
      ((enclose { cmd := "p", args := ⟨0, 1, 1⟩, env := some 0, OkExit := some [0] }).BakeOpts
        [{ Cwd := "/tmp" }]) :=
    .bakeOpts _ _
      (.call (Sh ∅ Heap.empty "p").2 _ (Sh ∅ Heap.empty "p").1 _
        [.str "-l", .env ((∅ : Env).insert "FOO" "bar")] .base
        (by intro v hv; simp at hv; rcases hv with rfl | rfl <;> exact ⟨rfl, rfl⟩) rfl)
      (by intro o ho; simp at ho; subst ho; rfl)
  ⟨hd, (C11_default_ok_exit_is_zero growslice (fun _ => 0) ∅ Heap.empty "p" _ hd).2.2.2.2.1⟩

/-! ## What `Start` hands to the process -/

/-- The process specification of a handle that `Start` returns: program, argument
vector, environment vector and working directory come from the template and the heap
in which `Start` is called. -/
theorem Start_stages (h h1 : Heap) (f : Command) (rc : RunningCommand)
    (hs : f.Start h = (h1, .ok rc)) :
    rc.cmd.Path = f.tmpl.cmd ∧
    rc.cmd.Args = f.tmpl.cmd :: f.tmpl.args.read h ∧
    rc.cmd.Env = f.tmpl.env.map (fun r => envVector (h.maps r)) ∧
    rc.cmd.Dir = f.tmpl.Cwd := by
  simp only [Command.Start, Command.expose] at hs
  split at hs
  · simp at hs
  · split at hs
    · simp at hs
    · split at hs
      · simp at hs
      · simp only [Prod.mk.injEq, Except.ok.injEq] at hs
        obtain ⟨-, rfl⟩ := hs
        refine ⟨?_, ?_, ?_, ?_⟩
        · cases f.tmpl.env <;> by_cases hc : f.tmpl.Cwd = "" <;>
            simp [NewRunningCommand, execCommand, hc]
        · cases f.tmpl.env <;> by_cases hc : f.tmpl.Cwd = "" <;>
            simp [NewRunningCommand, execCommand, hc]
        · cases f.tmpl.env <;> by_cases hc : f.tmpl.Cwd = "" <;>
            simp [NewRunningCommand, execCommand, hc]
        · cases f.tmpl.env <;> by_cases hc : f.tmpl.Cwd = "" <;>
            simp [NewRunningCommand, execCommand, hc]

theorem WriterFromInterface_ok (h h1 : Heap) (e : Endpoint) (s : Stream)
    (hw : WriterFromInterface h e = (h1, .ok s)) :
    h1.nextStream = h.nextStream + 1 ∧ s = ⟨h.nextStream, e⟩ := by
  cases e <;> simp [WriterFromInterface] at hw <;>
    (obtain ⟨rfl, rfl⟩ := hw; exact ⟨rfl, rfl⟩)

theorem ReaderFromInterface_ok (h h1 : Heap) (e : Endpoint) (s : Stream)
    (hw : ReaderFromInterface h e = (h1, .ok s)) :
    h1.nextStream = h.nextStream + 1 ∧ s = ⟨h.nextStream, e⟩ := by
  cases e <;> simp [ReaderFromInterface] at hw <;>
    (obtain ⟨rfl, rfl⟩ := hw; exact ⟨rfl, rfl⟩)

/-- C17: when the input binding of a Command is a Command, `Start` panics with the
"not yet implemented" error in the heap it was called in: no handle is returned, so no
process is spawned, and no stream has been resolved, whatever the output and error
bindings are. `Run` panics in the same way without asking for an exit code. -/
theorem C17_piping_not_implemented (h : Heap) (f : Command) (id : Nat)
    (hin : f.tmpl.In = some (.command id)) :
    f.Start h = (h, .error .notYetImplemented) ∧
    (∀ h1 rc, f.Start h ≠ (h1, .ok rc)) ∧
    (∀ os : ExecCmd → Int, f.Run os h = (h, .error .notYetImplemented)) := by
  have hs : f.Start h = (h, .error .notYetImplemented) := by
    simp [Command.Start, Command.expose, hin]
  refine ⟨hs, ?_, ?_⟩
  · intro h1 rc hc
    rw [hs] at hc
    simp at hc
  · intro os
    simp [Command.Run, hs]

/-- Witness of C17 at `Sh("p")` with the input bound to a Command and the output to a
buffer. -/
theorem C17_piping_not_implemented_witness :
    (shP.2.BakeOpts [{ In := some (.command 1), Out := some (.buffer 2) }]).tmpl.In
      = some (.command 1) ∧
    (shP.2.BakeOpts [{ In := some (.command 1), Out := some (.buffer 2) }]).Start shP.1
      = (shP.1, .error .notYetImplemented) :=
  ⟨rfl, (C17_piping_not_implemented shP.1
    (shP.2.BakeOpts [{ In := some (.command 1), Out := some (.buffer 2) }]) 1 rfl).1⟩

/-- The environment vector lists, key by key, the key, `=` and the value of the key. -/
theorem envVector_eq_keys (m : Env) :
    envVector m = m.keys.map fun k => k ++ "=" ++ (m.lookup k).getD "" := by
  unfold envVector AList.keys List.keys
  rw [List.map_map]
  apply List.map_congr_left
  intro e he
  have hl : m.lookup e.1 = some e.2 := by
    have : e.2 ∈ m.lookup e.1 := AList.mem_lookup_iff.mpr (by cases e; exact he)
    exact Option.mem_def.mp this
  simp [hl]

/-- What is in the environment vector: the strings `k=v` for the keys `k` of the map
and their values `v`. -/
theorem mem_envVector (m : Env) (s : String) :
    s ∈ envVector m ↔ ∃ k v, m.lookup k = some v ∧ s = k ++ "=" ++ v := by
  unfold envVector
  rw [List.mem_map]
  constructor
  · rintro ⟨⟨k, v⟩, he, rfl⟩
    exact ⟨k, v, Option.mem_def.mp (AList.mem_lookup_iff.mpr he), rfl⟩
  · rintro ⟨k, v, hl, rfl⟩
    exact ⟨⟨k, v⟩, AList.mem_lookup_iff.mp (Option.mem_def.mpr hl), rfl⟩

/-- Two maps with the same value for every key have the same environment vector up to
the order of its entries. -/
theorem envVector_perm (m m2 : Env) (hsame : ∀ k, m2.lookup k = m.lookup k) :
    (envVector m).Perm (envVector m2) := by
  unfold envVector
  apply List.Perm.map
  apply List.lookup_ext m.nodupKeys m2.nodupKeys
  intro k v
  have := hsame k
  simp only [AList.lookup] at this
  rw [this]

/-- C18: when the environment of a template is the map `r` (not nil) and `Start`
returns a handle, the environment vector of the process has one entry per key of the
map, in the order in which the map is visited, each entry being the key, `=` and the
value of the key; its length is the number of keys, its members are exactly these
strings, and it is a permutation of the `k=v` strings of any listing of the map. -/
theorem C18_env_vector_one_entry_per_key (h h1 : Heap) (f : Command) (rc : RunningCommand)
    (r : Nat) (hr : f.tmpl.env = some r) (hs : f.Start h = (h1, .ok rc)) :
    ∃ v, rc.cmd.Env = some v ∧
      v = (h.maps r).keys.map (fun k => k ++ "=" ++ ((h.maps r).lookup k).getD "") ∧
      v.length = (h.maps r).keys.length ∧
      (h.maps r).keys.Nodup ∧
      (∀ s, s ∈ v ↔ ∃ k val, (h.maps r).lookup k = some val ∧ s = k ++ "=" ++ val) ∧
      (∀ m2 : Env, (∀ k, m2.lookup k = (h.maps r).lookup k) →
        v.Perm (m2.entries.map fun e => e.1 ++ "=" ++ e.2)) := by
  obtain ⟨-, -, henv, -⟩ := Start_stages h h1 f rc hs
  rw [hr] at henv
  refine ⟨envVector (h.maps r), henv, envVector_eq_keys _, ?_, AList.keys_nodup _,
    mem_envVector _, fun m2 hsame => envVector_perm _ m2 hsame⟩
  rw [envVector_eq_keys, List.length_map]

/-- Witness of C18 at `Sh("p")` in a host whose environment is `FOO=bar`. -/
theorem C18_env_vector_one_entry_per_key_witness :
    (Sh ((∅ : Env).insert "FOO" "bar") Heap.empty "p").2.tmpl.env = some 0 ∧
    (Sh ((∅ : Env).insert "FOO" "bar") Heap.empty "p").2.Start
        (Sh ((∅ : Env).insert "FOO" "bar") Heap.empty "p").1
      = ((Sh ((∅ : Env).insert "FOO" "bar") Heap.empty "p").1,
          .ok (NewRunningCommand { Path := "p", Args := ["p"], Env := some ["FOO=bar"] })) ∧
    ∃ v, (NewRunningCommand { Path := "p", Args := ["p"], Env := some ["FOO=bar"] }).cmd.Env
        = some v ∧
      v.length = ((Sh ((∅ : Env).insert "FOO" "bar") Heap.empty "p").1.maps 0).keys.length :=
  ⟨rfl, rfl,
    let ⟨v, hv, _, hlen, _⟩ := C18_env_vector_one_entry_per_key
      (Sh ((∅ : Env).insert "FOO" "bar") Heap.empty "p").1
      (Sh ((∅ : Env).insert "FOO" "bar") Heap.empty "p").1
      (Sh ((∅ : Env).insert "FOO" "bar") Heap.empty "p").2
      (NewRunningCommand { Path := "p", Args := ["p"], Env := some ["FOO=bar"] }) 0 rfl rfl
    ⟨v, hv, hlen⟩⟩

/-! ## Capturing output -/

/-- C12: the template that `Output` runs is that of `f` with `Out` bound to the new
buffer, whatever `Out` was bound to; `Err`, `In`, `Cwd`, the accepted exit codes, the
program, the argument slice and the environment are those of `f`. `Output` panics
exactly when `Run` on that template does, with the same panic, so with
`FailureExitCode` in the same cases, and otherwise returns what the buffer has
accumulated. -/
theorem C12_output_rebinds_only_out (os : ExecCmd → Int) (bytes : Nat → String) (buf : Nat)
    (h : Heap) (f : Command) :
    (f.BakeOpts [{ Out := some (.buffer buf) }]).tmpl
      = { f.tmpl with Out := some (.buffer buf) } ∧
    (f.BakeOpts [{ Out := some (.buffer buf) }]).tmpl.Out = some (.buffer buf) ∧
    (f.BakeOpts [{ Out := some (.buffer buf) }]).tmpl.Err = f.tmpl.Err ∧
    (f.BakeOpts [{ Out := some (.buffer buf) }]).tmpl.In = f.tmpl.In ∧
    (f.BakeOpts [{ Out := some (.buffer buf) }]).tmpl.Cwd = f.tmpl.Cwd ∧
    (f.BakeOpts [{ Out := some (.buffer buf) }]).tmpl.OkExit = f.tmpl.OkExit ∧
    (f.BakeOpts [{ Out := some (.buffer buf) }]).tmpl.cmd = f.tmpl.cmd ∧
    (f.BakeOpts [{ Out := some (.buffer buf) }]).tmpl.args = f.tmpl.args ∧
    (f.BakeOpts [{ Out := some (.buffer buf) }]).tmpl.env = f.tmpl.env ∧
    (∀ h1 p, f.Output os bytes buf h = (h1, .error p)
      ↔ (f.BakeOpts [{ Out := some (.buffer buf) }]).Run os h = (h1, .error p)) ∧
    (∀ h1 n c, f.Output os bytes buf h = (h1, .error (.FailureExitCode n c))
      ↔ (f.BakeOpts [{ Out := some (.buffer buf) }]).Run os h
          = (h1, .error (.FailureExitCode n c))) ∧
    (∀ h1 s, f.Output os bytes buf h = (h1, .ok s)
      ↔ (f.BakeOpts [{ Out := some (.buffer buf) }]).Run os h = (h1, .ok ()) ∧
        s = bytes buf) := by
  have herr : ∀ h1 p, f.Output os bytes buf h = (h1, .error p)
      ↔ (f.BakeOpts [{ Out := some (.buffer buf) }]).Run os h = (h1, .error p) := by
    intro h1 p
    unfold Command.Output
    rcases (f.BakeOpts [{ Out := some (.buffer buf) }]).Run os h with ⟨h2, p2 | u⟩ <;> simp
  refine ⟨rfl, rfl, rfl, rfl, rfl, rfl, rfl, rfl, rfl, herr, fun h1 n c => herr h1 _, ?_⟩
  intro h1 s
  unfold Command.Output
  rcases (f.BakeOpts [{ Out := some (.buffer buf) }]).Run os h with ⟨h2, p2 | u⟩
  · simp
  · simp only [Prod.mk.injEq, Except.ok.injEq]
    constructor
    · rintro ⟨rfl, rfl⟩; exact ⟨⟨rfl, trivial⟩, rfl⟩
    · rintro ⟨⟨rfl, -⟩, rfl⟩; exact ⟨rfl, rfl⟩

/-- C13: the template that `CombinedOutput` runs has the one new buffer as `Out` and as
`Err`. For every template whose `Err` is bound and is the identical object as its
`Out`, a handle returned by `Start` has as standard error the very stream that is its
standard output, and `Start` has resolved one stream for the two of them (besides the
one for the input, if bound). -/
theorem C13_err_identical_to_out_shares_stream (h h1 : Heap) (g : Command)
    (rc : RunningCommand) (herr : g.tmpl.Err ≠ none) (hsame : g.tmpl.Err = g.tmpl.Out)
    (hs : g.Start h = (h1, .ok rc)) :
    (∀ (f : Command) (buf : Nat),
      (f.BakeOpts [{ Out := some (.buffer buf), Err := some (.buffer buf) }]).tmpl.Out
        = some (.buffer buf) ∧
      (f.BakeOpts [{ Out := some (.buffer buf), Err := some (.buffer buf) }]).tmpl.Err
        = some (.buffer buf) ∧
      ∀ (os : ExecCmd → Int) (bytes : Nat → String) (h0 : Heap),
        f.CombinedOutput os bytes buf h0
          = match (f.BakeOpts
              [{ Out := some (.buffer buf), Err := some (.buffer buf) }]).Run os h0 with
            | (h2, .error p) => (h2, .error p)
            | (h2, .ok _) => (h2, .ok (bytes buf))) ∧
    rc.cmd.Stderr = rc.cmd.Stdout ∧
    (∃ s, rc.cmd.Stdout = some s ∧ some s.endpoint = g.tmpl.Out) ∧
    h1.nextStream = h.nextStream + (if g.tmpl.In = none then 0 else 1) + 1 := by
  refine ⟨fun f buf => ⟨rfl, rfl, fun os bytes h0 => rfl⟩, ?_⟩
  obtain ⟨e, he⟩ := Option.ne_none_iff_exists'.mp herr
  have hout : g.tmpl.Out = some e := by rw [← hsame, he]
  simp only [Command.Start, Command.expose, he, hout] at hs
  split at hs
  · simp at hs
  · rename_i h2 sin hin
    split at hs
    · simp at hs
    · rename_i h3 sout hso
      split at hs
      · simp at hs
      · rename_i h4 serr hse
        simp only [Prod.mk.injEq, Except.ok.injEq] at hs
        obtain ⟨rfl, rfl⟩ := hs
        simp only [if_true, Prod.mk.injEq, Except.ok.injEq] at hse
        obtain ⟨rfl, rfl⟩ := hse
        rcases hw : WriterFromInterface h2 e with ⟨h5, p | s⟩
        · rw [hw] at hso; simp at hso
        · rw [hw] at hso
          simp only [Prod.mk.injEq, Except.ok.injEq] at hso
          obtain ⟨rfl, rfl⟩ := hso
          obtain ⟨hn, hsd⟩ := WriterFromInterface_ok h2 h5 e s hw
          have hh2 : h2.nextStream = h.nextStream + (if g.tmpl.In = none then 0 else 1) := by
            rcases hi : g.tmpl.In with _ | i
            · rw [hi] at hin
              simp only [Prod.mk.injEq, Except.ok.injEq] at hin
              rw [← hin.1]; simp
            · rw [hi] at hin
              rcases hr : ReaderFromInterface h i with ⟨h6, p | s6⟩
              · cases i <;> simp [hr] at hin
              · have hn6 := (ReaderFromInterface_ok h h6 i s6 hr).1
                cases i <;> simp [hr] at hin <;> (rw [← hin.1, hn6]; simp)
          refine ⟨?_, ⟨s, ?_, ?_⟩, ?_⟩
          · simp [NewRunningCommand]
          · simp [NewRunningCommand]
          · rw [hout, hsd]
          · rw [hn, hh2]

/-- Witness of C13 at the template that `Sh("p").CombinedOutput()` runs with buffer 1. -/
theorem C13_err_identical_to_out_shares_stream_witness :
    (shP.2.BakeOpts [{ Out := some (.buffer 1), Err := some (.buffer 1) }]).tmpl.Err ≠ none ∧
    (shP.2.BakeOpts [{ Out := some (.buffer 1), Err := some (.buffer 1) }]).tmpl.Err
      = (shP.2.BakeOpts [{ Out := some (.buffer 1), Err := some (.buffer 1) }]).tmpl.Out ∧
    (shP.2.BakeOpts [{ Out := some (.buffer 1), Err := some (.buffer 1) }]).Start shP.1
      = ({ shP.1 with nextStream := 1 },
          .ok (NewRunningCommand combinedSpec)) ∧
    (NewRunningCommand combinedSpec).cmd.Stderr
      = (NewRunningCommand combinedSpec).cmd.Stdout :=
  ⟨nofun, rfl, rfl, (C13_err_identical_to_out_shares_stream shP.1 { shP.1 with nextStream := 1 }
    (shP.2.BakeOpts [{ Out := some (.buffer 1), Err := some (.buffer 1) }])
    (NewRunningCommand combinedSpec) nofun rfl rfl).2.1⟩

/-! ## Empty overlays -/

/-- C14, as the code has it: an options overlay whose `OkExit` is nil leaves the
accepted exit codes of the template as they are, so that a process exit code accepted
before the bake is accepted after it; an overlay whose `OkExit` is a list of length
zero that is not nil replaces the accepted exit codes by the empty list, after which
`Run` returns normally for no exit code. -/
theorem C14_nil_ok_exit_keeps_codes (cmdt : commandTemplate) (O : Opts)
    (hnil : O.OkExit = none) :
    (cmdt.bakeOpts [O]).OkExit = cmdt.OkExit ∧
    (∀ (os : ExecCmd → Int) (h h1 : Heap) (rc : RunningCommand),
      (enclose (cmdt.bakeOpts [O])).Start h = (h1, .ok rc) →
      os rc.cmd ∈ cmdt.OkExit.getD [] →
      (enclose (cmdt.bakeOpts [O])).Run os h = (h1, .ok ())) ∧
    (∀ O2 : Opts, O2.OkExit = some [] →
      (cmdt.bakeOpts [O2]).OkExit = some [] ∧
      ∀ (os : ExecCmd → Int) (h h1 : Heap),
        (enclose (cmdt.bakeOpts [O2])).Run os h ≠ (h1, .ok ())) := by
  have hkeep : (cmdt.bakeOpts [O]).OkExit = cmdt.OkExit := by
    rw [bakeOpts_singleton, (bakeOpt_fields cmdt O).2.2.2.2.1, hnil]; simp
  refine ⟨hkeep, ?_, ?_⟩
  · intro os h h1 rc hstart hmem
    rw [Run_of_Start os h h1 _ rc hstart]
    have hk : (enclose (cmdt.bakeOpts [O])).tmpl.OkExit = cmdt.OkExit := hkeep
    rw [hk, (okLoop_iff _ _).mpr hmem]
    rfl
  · intro O2 h2
    have hrep : (cmdt.bakeOpts [O2]).OkExit = some [] := by
      rw [bakeOpts_singleton, (bakeOpt_fields cmdt O2).2.2.2.2.1, h2]; simp
    refine ⟨hrep, ?_⟩
    intro os h h1 hrun
    simp only [Command.Run, Command.expose] at hrun
    have hk : (enclose (cmdt.bakeOpts [O2])).tmpl.OkExit = some [] := hrep
    split at hrun
    · simp at hrun
    · rw [hk] at hrun
      simp [okLoop] at hrun

/-- Witness of C14 at the template of `Sh("p")` with the overlay `Opts{Cwd: "/tmp"}`. -/
theorem C14_nil_ok_exit_keeps_codes_witness :
    ({ Cwd := "/tmp" } : Opts).OkExit = none ∧
    (shP.2.tmpl.bakeOpts [{ Cwd := "/tmp" }]).OkExit = shP.2.tmpl.OkExit :=
  ⟨rfl, (C14_nil_ok_exit_keeps_codes shP.2.tmpl { Cwd := "/tmp" } rfl).1⟩

/-- Counterexample to C14 as stated: `Sh("p")` accepts exit code 0; after baking
`Opts{OkExit: []int{}}`, a list of length zero that is not nil, the accepted exit codes
are the empty list and not `[0]`, and `Run` panics with `FailureExitCode` on exit
code 0. -/
theorem C14_empty_non_nil_ok_exit_clears :
    ({ OkExit := some [] } : Opts).OkExit.getD [] = [] ∧
    shP.2.tmpl.OkExit = some [0] ∧
    (shP.2.BakeOpts [{ OkExit := some [] }]).tmpl.OkExit = some [] ∧
    (shP.2.BakeOpts [{ OkExit := some [] }]).tmpl.OkExit ≠ shP.2.tmpl.OkExit ∧
    shP.2.Run (fun _ => 0) shP.1 = (shP.1, .ok ()) ∧
    (shP.2.BakeOpts [{ OkExit := some [] }]).Run (fun _ => 0) shP.1
      = (shP.1, .error (.FailureExitCode "p" 0)) :=
  ⟨rfl, rfl, rfl, by decide, rfl, rfl⟩

/-! ## Baking nothing, and clearing the environment -/

/-- C15: `A.BakeArgs()` without strings returns a Command with the program,
environment and options of `A` and the same argument list, in a heap with the same
maps (for a slice within its capacity it is `A` itself); `A.BakeOpts()` without options
returns `A`. -/
theorem C15_baking_nothing_changes_nothing (grow : Nat → Nat → Nat) (h : Heap) (A : Command) :
    (A.BakeArgs grow h []).2.tmpl.cmd = A.tmpl.cmd ∧
    (A.BakeArgs grow h []).2.tmpl.args.read (A.BakeArgs grow h []).1 = A.tmpl.args.read h ∧
    (A.BakeArgs grow h []).2.tmpl.env = A.tmpl.env ∧
    (A.BakeArgs grow h []).1.maps = h.maps ∧
    (∀ k, (A.BakeArgs grow h []).2.tmpl.getenv (A.BakeArgs grow h []).1 k = A.tmpl.getenv h k) ∧
    (A.BakeArgs grow h []).2.tmpl.toOpts = A.tmpl.toOpts ∧
    (A.tmpl.args.len ≤ A.tmpl.args.cap → (A.BakeArgs grow h []).2 = A) ∧
    A.BakeOpts [] = A := by
  have hread := bakeArgs_read grow h A.tmpl []
  have hmaps : (A.BakeArgs grow h []).1.maps = h.maps := by
    simp only [Command.BakeArgs, commandTemplate.bakeArgs, Command.expose, Heap.append]
    split <;> rfl
  refine ⟨rfl, ?_, rfl, hmaps, ?_, rfl, ?_, rfl⟩
  · simpa using hread
  · intro k
    simp only [commandTemplate.getenv]
    have he : (A.BakeArgs grow h []).2.tmpl.env = A.tmpl.env := rfl
    rw [he, hmaps]
  · intro hle
    simp [Command.BakeArgs, commandTemplate.bakeArgs, Command.expose, Heap.append, hle, enclose]

/-- C16: the Command obtained by the clear-environment modifier, through the
invocation or through `ClearEnv`, has an environment that is a map without entries,
so that every key is absent, and has the program, the argument list and the options
of `A`. -/
theorem C16_clear_env_empties_environment (grow : Nat → Nat → Nat) (os : ExecCmd → Int)
    (h : Heap) (A : Command) :
    A.call grow os h [.clearEnv] = ((A.ClearEnv h).1, .ok (.command (A.ClearEnv h).2)) ∧
    (∃ r, (A.ClearEnv h).2.tmpl.env = some r ∧ ((A.ClearEnv h).1.maps r).entries = [] ∧
      ((A.ClearEnv h).1.maps r).keys = []) ∧
    (∀ k, (A.ClearEnv h).2.tmpl.getenv (A.ClearEnv h).1 k = none) ∧
    (A.ClearEnv h).2.tmpl.cmd = A.tmpl.cmd ∧
    (A.ClearEnv h).2.tmpl.args = A.tmpl.args ∧
    (A.ClearEnv h).2.tmpl.args.read (A.ClearEnv h).1 = A.tmpl.args.read h ∧
    (A.ClearEnv h).2.tmpl.toOpts = A.tmpl.toOpts := by
  refine ⟨rfl, ⟨h.nextMap, rfl, ?_, ?_⟩, ?_, rfl, rfl, rfl, rfl⟩
  · simp [Command.ClearEnv, commandTemplate.clearEnv, Heap.newMap]
  · simp [Command.ClearEnv, commandTemplate.clearEnv, Heap.newMap]
  · intro k
    simp [Command.ClearEnv, commandTemplate.clearEnv, Heap.newMap, commandTemplate.getenv,
      Command.expose, enclose]

/-! ## One call or several -/

/-- The loop of `closure` over a concatenated list is the loop over the first list
followed, from the heap and the template reached, by the loop over the second. -/
theorem closureLoop_append (grow : Nat → Nat → Nat) (ms ns : List Value) :
    ∀ (h : Heap) (cmdt : commandTemplate),
      closureLoop grow (ms ++ ns) h cmdt =
        match closureLoop grow ms h cmdt with
        | (h1, .error p) => (h1, .error p)
        | (h1, .ok c) => closureLoop grow ns h1 c := by
  induction ms with
  | nil => intro h cmdt; rfl
  | cons a rest ih =>
    intro h cmdt
    cases a with
    | str s => simp only [List.cons_append, closureLoop]; exact ih _ _
    | env e =>
      simp only [List.cons_append, closureLoop]
      rcases cmdt.bakeEnv h e with ⟨h2, p | c2⟩
      · rfl
      · exact ih _ _
    | clearEnv => simp only [List.cons_append, closureLoop]; exact ih _ _
    | opts o => simp only [List.cons_append, closureLoop]; exact ih _ _
    | exposeFlag => rfl
    | other n => rfl

/-- A call with a non-empty list of modifiers is the loop of `closure` on the template. -/
theorem call_of_modifiers (grow : Nat → Nat → Nat) (os : ExecCmd → Int) (h : Heap)
    (A : Command) (ms : List Value) (hne : ms ≠ []) (hm : ∀ v ∈ ms, v.isModifier = true) :
    A.call grow os h ms =
      match closureLoop grow ms h A.tmpl with
      | (h1, .error p) => (h1, .error p)
      | (h1, .ok c) => (h1, .ok (.command (enclose c))) := by
  cases ms with
  | nil => exact absurd rfl hne
  | cons a rest =>
    have ha := hm a (List.mem_cons_self _ _)
    cases a with
    | exposeFlag => simp [Value.isModifier] at ha
    | _ => rfl

/-- C19: for non-empty lists `ms` and `ns` of modifiers, the single call
`A(ms..., ns...)` has the outcome of the successive calls `A(ms...)(ns...)`: when
`A(ms...)` returns `B`, it is the outcome of `B(ns...)` in the heap reached, with the
same heap and the same template; when `A(ms...)` panics, it panics alike. On a
template whose environment map is not nil all three calls return a Command. -/
theorem C19_one_call_equals_successive_calls (grow : Nat → Nat → Nat) (os : ExecCmd → Int)
    (h : Heap) (A : Command) (ms ns : List Value) (hms : ms ≠ []) (hns : ns ≠ [])
    (hm : ∀ v ∈ ms, v.isModifier = true) (hn : ∀ v ∈ ns, v.isModifier = true) :
    (∀ h1 B, A.call grow os h ms = (h1, .ok (.command B)) →
      A.call grow os h (ms ++ ns) = B.call grow os h1 ns) ∧
    (∀ h1 p, A.call grow os h ms = (h1, .error p) →
      A.call grow os h (ms ++ ns) = (h1, .error p)) ∧
    (A.tmpl.env ≠ none → ∃ h1 B h2 C,
      A.call grow os h ms = (h1, .ok (.command B)) ∧
      B.call grow os h1 ns = (h2, .ok (.command C)) ∧
      A.call grow os h (ms ++ ns) = (h2, .ok (.command C))) := by
  have hmn : ∀ v ∈ ms ++ ns, v.isModifier = true := by
    intro v hv
    rcases List.mem_append.mp hv with hv | hv
    · exact hm v hv
    · exact hn v hv
  have hne : ms ++ ns ≠ [] := by simp [hms]
  have hok : ∀ h1 B, A.call grow os h ms = (h1, .ok (.command B)) →
      A.call grow os h (ms ++ ns) = B.call grow os h1 ns := by
    intro h1 B hcall
    rw [call_of_modifiers grow os h A ms hms hm] at hcall
    rw [call_of_modifiers grow os h A (ms ++ ns) hne hmn, closureLoop_append,
      call_of_modifiers grow os h1 B ns hns hn]
    rcases hl : closureLoop grow ms h A.tmpl with ⟨h2, p | c⟩
    · rw [hl] at hcall; simp at hcall
    · rw [hl] at hcall
      simp only [Prod.mk.injEq, Except.ok.injEq, Result.command.injEq] at hcall
      obtain ⟨rfl, rfl⟩ := hcall
      rfl
  refine ⟨hok, ?_, ?_⟩
  · intro h1 p hcall
    rw [call_of_modifiers grow os h A ms hms hm] at hcall
    rw [call_of_modifiers grow os h A (ms ++ ns) hne hmn, closureLoop_append]
    rcases hl : closureLoop grow ms h A.tmpl with ⟨h2, p2 | c⟩
    · rw [hl] at hcall
      simp only [Prod.mk.injEq, Except.error.injEq] at hcall
      obtain ⟨rfl, rfl⟩ := hcall
      rfl
    · rw [hl] at hcall; simp at hcall
  · intro henv
    have hfind : ∀ l : List Value, (∀ v ∈ l, v.isModifier = true) →
        l.find? (fun v => !v.isModifier) = none := by
      intro l hl
      rw [List.find?_eq_none]
      intro v hv
      simp [hl v hv]
    have h1spec := closureLoop_spec grow ms h A.tmpl henv
    rw [hfind ms hm] at h1spec
    obtain ⟨h1, c1, hrun1, henv1⟩ := h1spec
    have h2spec := closureLoop_spec grow ns h1 c1 henv1
    rw [hfind ns hn] at h2spec
    obtain ⟨h2, c2, hrun2, -⟩ := h2spec
    have hA : A.call grow os h ms = (h1, .ok (.command (enclose c1))) := by
      rw [call_of_modifiers grow os h A ms hms hm, hrun1]
    have hB : (enclose c1).call grow os h1 ns = (h2, .ok (.command (enclose c2))) := by
      rw [call_of_modifiers grow os h1 (enclose c1) ns hns hn]
      have ht : (enclose c1).tmpl = c1 := rfl
      rw [ht, hrun2]
    exact ⟨h1, enclose c1, h2, enclose c2, hA, hB, (hok h1 _ hA).trans hB⟩

/-- Witness of C19 at `Sh("p")` with `ms = ["-l", Env{"FOO": "bar"}]` and
`ns = [Opts{Cwd: "/tmp"}, "x"]`. -/
theorem C19_one_call_equals_successive_calls_witness :
    [Value.str "-l", Value.env ((∅ : Env).insert "FOO" "bar")] ≠ [] ∧
    [Value.opts { Cwd := "/tmp" }, Value.str "x"] ≠ [] ∧
    (∀ v ∈ [Value.str "-l", Value.env ((∅ : Env).insert "FOO" "bar")], v.isModifier = true) ∧
    (∀ v ∈ [Value.opts { Cwd := "/tmp" }, Value.str "x"], v.isModifier = true) ∧
    shP.2.tmpl.env ≠ none ∧
    ∃ h1 B h2 C,
      shP.2.call growslice (fun _ => 0) shP.1
        [Value.str "-l", Value.env ((∅ : Env).insert "FOO" "bar")] = (h1, .ok (.command B)) ∧
      B.call growslice (fun _ => 0) h1 [Value.opts { Cwd := "/tmp" }, Value.str "x"]
        = (h2, .ok (.command C)) ∧
      shP.2.call growslice (fun _ => 0) shP.1
        ([Value.str "-l", Value.env ((∅ : Env).insert "FOO" "bar")]
          ++ [Value.opts { Cwd := "/tmp" }, Value.str "x"]) = (h2, .ok (.command C)) :=
  have hm : ∀ v ∈ [Value.str "-l", Value.env ((∅ : Env).insert "FOO" "bar")],
      v.isModifier = true := by
    intro v hv; simp at hv; rcases hv with rfl | rfl <;> rfl
  have hn : ∀ v ∈ [Value.opts { Cwd := "/tmp" }, Value.str "x"], v.isModifier = true := by
    intro v hv; simp at hv; rcases hv with rfl | rfl <;> rfl
  ⟨List.cons_ne_nil _ _, List.cons_ne_nil _ _, hm, hn, nofun,
    (C19_one_call_equals_successive_calls growslice (fun _ => 0) shP.1 shP.2
      [Value.str "-l", Value.env ((∅ : Env).insert "FOO" "bar")]
      [Value.opts { Cwd := "/tmp" }, Value.str "x"]
      (List.cons_ne_nil _ _) (List.cons_ne_nil _ _) hm hn).2.2 nofun⟩

/-! ## A bake that fails -/

/-- C20: at `A = Sh("p")` in a host without variables, the call
`A(Env{"FOO": "bar"}, v)` with `v` of an unrecognized type panics with
`IncomprehensibleCommandModifier` after `bakeEnv` has stored `FOO` in the map that the
template of `A` refers to: `FOO` is absent from the environment of `A` before the call
and is `bar` after it. The argument list and the options of `A` are unaffected. -/
theorem C20_failed_bake_has_written_shared_map :
    ∃ h1,
      shP.2.call growslice (fun _ => 0) shP.1
        [.env ((∅ : Env).insert "FOO" "bar"), .other 42]
        = (h1, .error (.IncomprehensibleCommandModifier (.other 42))) ∧
      shP.2.tmpl.getenv shP.1 "FOO" = none ∧
      shP.2.tmpl.getenv h1 "FOO" = some "bar" ∧
      shP.2.tmpl.args.read h1 = shP.2.tmpl.args.read shP.1 :=
  ⟨_, rfl, rfl, rfl, rfl⟩

end Gosh
